import Mathlib

/-!
# Verification of the forecast-intelligence worker

This file is a shallow embedding, in Lean 4, of the time-series forecasting
engine of the repository (the `forecastIntelligenceWorker` half of
`src/workers/forecastWorker.js`), together with theorems settling the frozen
claims about it.

Modelling conventions, used consistently below:

* JavaScript numbers (IEEE-754 doubles) are modelled as exact rationals `ℚ`.
  `NaN`/`Infinity` have no rational counterpart, so the sanitizer
  `safeFiniteNumber` (which maps non-finite values to `0`) is the identity in
  this model; the few places where a non-finite value could reach it are noted
  at the definition sites.
* Calendar dates `"YYYY-MM-DD"` are modelled as epoch-day integers `ℤ`
  (the number of days since 1970-01-01, which is how the JS code manipulates
  them through `Date`/UTC arithmetic: the string form and the day number are
  in bijection).  `Date.prototype.getUTCDay` becomes `(d + 4) % 7` because
  1970-01-01 was a Thursday (`getUTCDay() = 4`).
* The transcendental library functions `Math.sqrt`, `Math.log1p`, `Math.expm1`
  have no exact rational value.  The pipeline is therefore parameterized by a
  `NumericOracle` supplying arbitrary rational-valued models of them; every
  pipeline theorem below holds for *every* oracle, so no result depends on the
  accuracy of these functions.  (The round-trip claim about the `log1p`
  transform, which is genuinely about the real functions, is stated separately
  over `ℝ` in the `RealTransform` namespace.)
* The `arima` npm package is an external dependency whose code is not part of
  this repository.  Its trained-model predictions are modelled as an oracle
  `ArimaOracle : p → d → q → train → steps → Option (List ℚ)`; `none` models a
  constructor/train/predict failure (a thrown exception or a non-array
  result), which the worker catches.
* `Array.prototype.sort` with a consistent numeric comparator is a stable sort
  (required by the ECMAScript specification); a stable sort of a list under a
  total preorder is unique, so it is modelled by `List.insertionSort` (whose
  `orderedInsert` places a new element after existing order-equivalent ones,
  matching stability).
* A JS `Map` built by successive `set` calls resolves duplicate keys to the
  last write; lookup is modelled by searching the reversed insertion list.
* `new Array(len)` throws a `RangeError` ("Invalid array length") when `len`
  is not a non-negative integer.  The model functions are invoked by the
  worker with `sanitizedHorizon`, so the pipeline checks integrality of the
  sanitized horizon up front and fails with that message, exactly where the
  first `new Array(sanitizedHorizon)` inside `seasonalNaiveForecast` would
  throw in JS.
* `simple-statistics`' `sampleVariance` (hence `sampleStandardDeviation`)
  throws on fewer than two data points.  The two places the worker can hit
  this (a continuous series of length < 2 built from duplicate dates, and a
  backtest-residual list of length < 2) are modelled as explicit error
  branches with the library's message, in the order JS would reach them.
* The `notes`, `params` and `analysis` fields of the worker's result, and the
  `fitted`-line legacy worker in the first half of the file, are not modelled:
  no claim refers to them and they feed no other output field.
* Every candidate record in the worker stores its forecast in the
  `forecastFuture` array, so the `Array.isArray(chosen.forecastFuture) ? … :`
  fallback at the end of the worker is dead code; the model uses
  `chosen.forecastFuture` directly.
-/

namespace ForecastWorker

/-- Models of the transcendental `Math` functions used by the worker.  All
pipeline theorems are universally quantified over this oracle. -/
structure NumericOracle where
  sqrt : ℚ → ℚ
  log1p : ℚ → ℚ
  expm1 : ℚ → ℚ

/-- Model of the external `arima` npm package: given the order `(p, d, q)`,
the training series and a step count, produce the prediction array, or `none`
when training/prediction throws or returns a non-array. -/
def ArimaOracle : Type := ℕ → ℕ → ℕ → List ℚ → ℕ → Option (List ℚ)

/-- `safeFiniteNumber` in the source coerces non-finite numbers to `0`; in the
rational model every number is finite, so it is the identity. -/
def safeFiniteNumber (v : ℚ) : ℚ := v

/-- `clampNonNegative(value) = Math.max(0, Number(value) || 0)`. -/
def clampNonNegative (v : ℚ) : ℚ := max 0 v

/-- `dayOfWeekIndexUTC`: `getUTCDay()` of an epoch day (1970-01-01 = day 0 was
a Thursday, weekday 4). -/
def dayOfWeekIndexUTC (d : ℤ) : ℕ := ((d + 4) % 7).toNat

/-- `ss.mean`: arithmetic mean (call sites pass non-empty lists). -/
def ssMean (l : List ℚ) : ℚ := l.sum / l.length

/-- `ss.median`: middle of the ascending sort, averaging the two middle
elements for even lengths (call sites pass non-empty lists; `0` on `[]`). -/
def ssMedian (l : List ℚ) : ℚ :=
  let s := List.insertionSort (· ≤ ·) l
  let n := s.length
  if n = 0 then 0
  else if n % 2 = 1 then s.getD (n / 2) 0
  else (s.getD (n / 2 - 1) 0 + s.getD (n / 2) 0) / 2

/-- `ss.medianAbsoluteDeviation`: median of the absolute deviations from the
median. -/
def ssMedianAbsoluteDeviation (l : List ℚ) : ℚ :=
  ssMedian (l.map (fun v => |v - ssMedian l|))

/-- `ss.variance`: population variance `Σ (x - mean)² / n`. -/
def ssVariance (l : List ℚ) : ℚ :=
  (l.map (fun v => (v - ssMean l) ^ 2)).sum / l.length

/-- `ss.sampleVariance`: `Σ (x - mean)² / (n - 1)` (the JS library throws on
`n < 2`; call sites reaching this model are guarded so that branch returns an
arbitrary `0`). -/
def ssSampleVariance (l : List ℚ) : ℚ :=
  (l.map (fun v => (v - ssMean l) ^ 2)).sum / ((l.length : ℚ) - 1)

/-- `ss.sampleStandardDeviation = Math.sqrt(sampleVariance)`, via the oracle. -/
def ssSampleStandardDeviation (O : NumericOracle) (l : List ℚ) : ℚ :=
  if l.length < 2 then 0 else O.sqrt (ssSampleVariance l)

/-- `ss.min` (call sites pass non-empty lists; `0` on `[]`). -/
def ssMin (l : List ℚ) : ℚ := (List.insertionSort (· ≤ ·) l).headD 0

/-- `ss.max` (call sites pass non-empty lists; `0` on `[]`). -/
def ssMax (l : List ℚ) : ℚ := (List.insertionSort (· ≤ ·) l).getLastD 0

/-- The worker's `quantile` helper: sort ascending, then linearly interpolate
at position `(n-1)·q`.  For `q ∈ [0,1]` this matches the JS exactly; the final
`some 0` branch is only reachable for `q ∉ [0,1]` (where JS produces
`NaN`/`undefined`) and is never exercised by the claims. -/
def quantile (values : List ℚ) (q : ℚ) : Option ℚ :=
  if values.length = 0 then none
  else
    let sorted := List.insertionSort (· ≤ ·) values
    let pos : ℚ := ((sorted.length - 1 : ℕ) : ℚ) * q
    let base : ℤ := ⌊pos⌋
    let rest : ℚ := pos - (base : ℚ)
    if 0 ≤ base ∧ base.toNat + 1 < sorted.length then
      some (sorted.getD base.toNat 0 +
        rest * (sorted.getD (base.toNat + 1) 0 - sorted.getD base.toNat 0))
    else if 0 ≤ base ∧ base.toNat < sorted.length then
      some (sorted.getD base.toNat 0)
    else some 0

/-- `computeSkewness`: third standardized moment (σ via the oracle);
`null` for `n < 3`, `0` when the sample standard deviation is `0`. -/
def computeSkewness (O : NumericOracle) (values : List ℚ) : Option ℚ :=
  let n := values.length
  if n < 3 then none
  else
    let m := ssMean values
    let std := ssSampleStandardDeviation O values
    if std = 0 then some 0
    else some (((values.map (fun v => (v - m) ^ 3)).sum / n) / std ^ 3)

/-- `computeKurtosis`: excess kurtosis (σ via the oracle); `null` for `n < 4`,
`0` when the sample standard deviation is `0`. -/
def computeKurtosis (O : NumericOracle) (values : List ℚ) : Option ℚ :=
  let n := values.length
  if n < 4 then none
  else
    let m := ssMean values
    let std := ssSampleStandardDeviation O values
    if std = 0 then some 0
    else some (((values.map (fun v => (v - m) ^ 4)).sum / n) / std ^ 4 - 3)

/-- `computeJarqueBera`: `null` for `n < 5`, else
`(n/6)·(skew² + kurt²/4)` with `null` moments coerced to `0`. -/
def computeJarqueBera (O : NumericOracle) (residuals : List ℚ) : Option ℚ :=
  let n := residuals.length
  if n < 5 then none
  else
    let skew := (computeSkewness O residuals).getD 0
    let kurt := (computeKurtosis O residuals).getD 0
    some (((n : ℚ) / 6) * (skew ^ 2 + kurt ^ 2 / 4))

/-- `SummaryStats` as produced by `computeSummaryStats` (the worker only reads
`min`, `skewness` and `cv` outside the unmodelled `analysis` block). -/
structure SummaryStats where
  n : ℕ
  mean : ℚ
  median : ℚ
  min : ℚ
  max : ℚ
  variance : ℚ
  std : ℚ
  cv : Option ℚ
  p10 : Option ℚ
  p90 : Option ℚ
  iqr : ℚ
  zeroRatio : Option ℚ
  skewness : Option ℚ
  kurtosis : Option ℚ
deriving DecidableEq

/-- `computeSummaryStats` (call sites pass non-empty lists). -/
def computeSummaryStats (O : NumericOracle) (values : List ℚ) : SummaryStats :=
  let v := values
  let mean := ssMean v
  let std := ssSampleStandardDeviation O v
  { n := v.length
    mean := mean
    median := ssMedian v
    min := ssMin v
    max := ssMax v
    variance := ssVariance v
    std := std
    cv := if mean ≠ 0 then some (std / |mean|) else none
    p10 := quantile v (1/10)
    p90 := quantile v (9/10)
    iqr := (quantile v (3/4)).getD 0 - (quantile v (1/4)).getD 0
    zeroRatio := if v.length ≠ 0 then
        some (((v.filter (fun x => x = 0)).length : ℚ) / v.length) else none
    skewness := computeSkewness O v
    kurtosis := computeKurtosis O v }

/-- `computeAutocorrelation` at lags `1 … maxLag`. -/
def computeAutocorrelation (values : List ℚ) (maxLag : ℕ) : List ℚ :=
  let n := values.length
  if n = 0 then []
  else
    let m := ssMean values
    let denom := (values.map (fun v => (v - m) ^ 2)).sum
    if denom = 0 then List.replicate maxLag 0
    else
      (List.range maxLag).map (fun lag0 =>
        let lag := lag0 + 1
        ((List.range n).filterMap (fun i =>
          if lag ≤ i then
            some ((values.getD i 0 - m) * (values.getD (i - lag) 0 - m))
          else none)).sum / denom)

/-- `applyTransform` over the rational model (`Math.log1p` via the oracle). -/
def applyTransform (O : NumericOracle) (values : List ℚ) (method : String) :
    List ℚ :=
  if method = "log1p" then values.map (fun v => O.log1p (max 0 v))
  else values.map safeFiniteNumber

/-- `invertTransform` over the rational model (`Math.expm1` via the oracle). -/
def invertTransform (O : NumericOracle) (values : List ℚ) (method : String) :
    List ℚ :=
  if method = "log1p" then values.map (fun v => O.expm1 v)
  else values.map safeFiniteNumber

/-- `resolveTransformMethod`: forced settings pass through, otherwise pick
`log1p` when there are no negatives and skewness > 1.25 or cv > 1.5.  (The JS
`!summary` guard is unreachable: the summary is computed from a non-empty
series.) -/
def resolveTransformMethod (setting : String) (summary : SummaryStats) :
    String :=
  if setting = "log1p" then "log1p"
  else if setting = "none" then "none"
  else if summary.min < 0 then "none"
  else if (match summary.skewness with
           | some s => decide ((5/4 : ℚ) < s)
           | none => false) then "log1p"
  else if (match summary.cv with
           | some c => decide ((3/2 : ℚ) < c)
           | none => false) then "log1p"
  else "none"

/-- `computeErrorMetrics` result record (`null` metrics as `none`). -/
structure ErrorMetrics where
  mae : Option ℚ
  rmse : Option ℚ
  smape : Option ℚ
  bias : Option ℚ
  mase : Option ℚ
deriving DecidableEq

/-- `computeErrorMetrics` over `min(|actual|, |predicted|)` points; `rmse`
uses `Math.sqrt` (oracle); `mase` only when a positive baseline is given. -/
def computeErrorMetrics (O : NumericOracle) (actual predicted : List ℚ)
    (baselineMAE : Option ℚ) : ErrorMetrics :=
  let n := min actual.length predicted.length
  if n = 0 then ⟨none, none, none, none, none⟩
  else
    let errs := (List.range n).map
      (fun i => actual.getD i 0 - predicted.getD i 0)
    let absSum := (errs.map (fun e => |e|)).sum
    let sqSum := (errs.map (fun e => e ^ 2)).sum
    let smapeSum := ((List.range n).map (fun i =>
      let a := actual.getD i 0
      let p := predicted.getD i 0
      let denom := |a| + |p|
      if denom = 0 then 0 else 2 * |a - p| / denom)).sum
    let mae := absSum / n
    { mae := some mae
      rmse := some (O.sqrt (sqSum / n))
      smape := some (smapeSum / n * 100)
      bias := some (errs.sum / n)
      mase := match baselineMAE with
              | some b => if 0 < b then some (mae / b) else none
              | none => none }

/-- `computeNaiveScale`: mean absolute difference at the seasonal lag;
`null` when the series is not longer than one season. -/
def computeNaiveScale (values : List ℚ) (seasonLength : ℕ) : Option ℚ :=
  if values.length ≤ seasonLength then none
  else
    let diffs := (List.range values.length).filterMap (fun i =>
      if seasonLength ≤ i then
        some |values.getD i 0 - values.getD (i - seasonLength) 0|
      else none)
    if diffs.length ≠ 0 then some (diffs.sum / diffs.length) else none

/-- `seasonalNaiveForecast`: repeat the last season (`y[n - s + (k % s)]`),
degenerate to the last value when the history is shorter than a season;
clamped non-negative. -/
def seasonalNaiveForecast (historyValues : List ℚ) (horizon : ℕ)
    (seasonLength : ℕ) : List ℚ :=
  let y := historyValues.map safeFiniteNumber
  let n := y.length
  ((List.range horizon).map (fun k =>
    if seasonLength ≤ n then y.getD (n - seasonLength + k % seasonLength) 0
    else y.getD (n - 1) 0)).map clampNonNegative

/-- `driftForecast`: linear extrapolation through first and last points;
clamped non-negative. -/
def driftForecast (historyValues : List ℚ) (horizon : ℕ) : List ℚ :=
  let y := historyValues.map safeFiniteNumber
  let n := y.length
  let first := y.getD 0 0
  let last := y.getD (n - 1) 0
  let slope := if 2 ≤ n then (last - first) / ((n : ℚ) - 1) else 0
  ((List.range horizon).map (fun (k : ℕ) =>
    last + slope * ((k : ℚ) + 1))).map clampNonNegative

/-- `sesForecast`: simple exponential smoothing, flat-line forecast of the
final level; clamped non-negative. -/
def sesForecast (historyValues : List ℚ) (horizon : ℕ) (alpha : ℚ) : List ℚ :=
  match historyValues.map safeFiniteNumber with
  | [] => List.replicate horizon 0
  | h :: t =>
    let level := t.foldl (fun lv v => alpha * v + (1 - alpha) * lv) h
    (List.replicate horizon level).map clampNonNegative

/-- `holtForecast`: double exponential smoothing (level + trend); clamped
non-negative. -/
def holtForecast (historyValues : List ℚ) (horizon : ℕ) (alpha beta : ℚ) :
    List ℚ :=
  match historyValues.map safeFiniteNumber with
  | [] => List.replicate horizon 0
  | h :: t =>
    let init : ℚ × ℚ := (h, match t with | [] => 0 | v :: _ => v - h)
    let fin := t.foldl (fun (s : ℚ × ℚ) v =>
      let level := alpha * v + (1 - alpha) * (s.1 + s.2)
      (level, beta * (level - s.1) + (1 - beta) * s.2)) init
    ((List.range horizon).map (fun (k : ℕ) =>
      fin.1 + ((k : ℚ) + 1) * fin.2)).map clampNonNegative

/-- One anomaly record of `detectAnomalies`. -/
structure Anomaly where
  index : ℕ
  date : ℤ
  actual : ℚ
  expected : ℚ
  z : ℚ
deriving DecidableEq

/-- `detectAnomalies`: weekly seasonal-naive expectation (value 7 days prior,
else the mean of the first week), MAD-based robust scale, flag
`|residual / robustSigma| ≥ anomalyZ`. -/
def detectAnomalies (dates : List ℤ) (values : List ℚ) (anomalyZ : ℚ) :
    List Anomaly × ℚ :=
  let y := values.map safeFiniteNumber
  let n := y.length
  let expected := (List.range n).map (fun i =>
    if 7 ≤ i then y.getD (i - 7) 0 else ssMean (y.take (min n 7)))
  let residuals := (List.range n).map (fun i => y.getD i 0 - expected.getD i 0)
  let mad := ssMedianAbsoluteDeviation (residuals.map (fun r => |r|))
  let robustSigma := max (1 / 10 ^ 9) (14826 / 10000 * mad)
  let anomalies := (List.range n).filterMap (fun i =>
    let z := residuals.getD i 0 / robustSigma
    if anomalyZ ≤ |z| then
      some ⟨i, dates.getD i 0, y.getD i 0, expected.getD i 0, z⟩
    else none)
  (anomalies, robustSigma)

/-- `zValueForConfidence`: normal critical values by threshold. -/
def zValueForConfidence (confidence : ℚ) : ℚ :=
  if 995/1000 ≤ confidence then 2807/1000
  else if 99/100 ≤ confidence then 2576/1000
  else if 975/1000 ≤ confidence then 2241/1000
  else if 95/100 ≤ confidence then 196/100
  else if 9/10 ≤ confidence then 1645/1000
  else 128/100

/-- Structural model of `Array.prototype.map`'s `(element, index)` callback
(`List.mapIdx` delegates to an `Array`-based worker that resists rewriting,
so the index-carrying map is spelled out). -/
def mapWithIndexFrom {α β : Type} (f : ℕ → α → β) : ℕ → List α → List β
  | _, [] => []
  | i, a :: l => f i a :: mapWithIndexFrom f (i + 1) l

/-- `l.map((v, i) => f(i, v))`. -/
def mapWithIndex {α β : Type} (f : ℕ → α → β) (l : List α) : List β :=
  mapWithIndexFrom f 0 l

/-- The date comparator of `sortPairsByDate`
(`(a, b) => new Date(a.d) - new Date(b.d)` on epoch days). -/
def pairDateLE (a b : ℤ × ℚ) : Prop := a.1 ≤ b.1

instance : DecidableRel pairDateLE := fun a b =>
  inferInstanceAs (Decidable (a.1 ≤ b.1))

instance : IsTotal (ℤ × ℚ) pairDateLE := ⟨fun a b => le_total a.1 b.1⟩

instance : IsTrans (ℤ × ℚ) pairDateLE := ⟨fun _ _ _ => le_trans⟩

/-- `sortPairsByDate`: pair each date with its (sanitized) value and stably
sort by date (JS `Array.sort` on the `Date` difference comparator). -/
def sortPairsByDate (dates : List ℤ) (values : List ℚ) : List (ℤ × ℚ) :=
  List.insertionSort pairDateLE
    (mapWithIndex (fun i d => (d, safeFiniteNumber (values.getD i 0))) dates)

/-- Lookup in the JS `Map` built by inserting the sorted pairs in order:
the last write for a key wins. -/
def mapLookup (pairs : List (ℤ × ℚ)) (d : ℤ) : Option ℚ :=
  (pairs.reverse.find? (fun p => p.1 = d)).map (·.2)

/-- The `ContinuousSeries` record returned by `buildContinuousDailySeries`. -/
structure ContinuousSeries where
  continuousDates : List ℤ
  continuousValues : List ℚ
  missingCount : ℕ
deriving DecidableEq

/-- The day-by-day `while (cursor <= endDate)` loop of
`buildContinuousDailySeries`, with the trip count made explicit as fuel
(the caller passes exactly `span + 1`). -/
def buildLoop (pairs : List (ℤ × ℚ)) : ℕ → ℤ → ContinuousSeries
  | 0, _ => ⟨[], [], 0⟩
  | fuel + 1, cursor =>
    let rest := buildLoop pairs fuel (cursor + 1)
    let hit := mapLookup pairs cursor
    ⟨cursor :: rest.continuousDates,
     (hit.getD 0) :: rest.continuousValues,
     (if hit.isSome then 0 else 1) + rest.missingCount⟩

/-- `buildContinuousDailySeries`: continuous daily series between the min and
max input dates, missing days filled with `0`. -/
def buildContinuousDailySeries (inputDates : List ℤ) (inputValues : List ℚ) :
    ContinuousSeries :=
  let pairs := sortPairsByDate inputDates inputValues
  match pairs with
  | [] => ⟨[], [], 0⟩
  | p₀ :: _ =>
    let start := p₀.1
    let stop := (pairs.getLastD p₀).1
    buildLoop pairs ((stop - start).toNat + 1) start

/-- `computeWeeklySeasonality`: additive per-weekday effect
`(mean on that weekday) − (overall mean)`; weekdays with no observations get
effect `0`. -/
def computeWeeklySeasonality (dates : List ℤ) (values : List ℚ) :
    List ℚ × ℚ :=
  let overallMean := ssMean (values.map safeFiniteNumber)
  let effect := (List.range 7).map (fun d =>
    let onDay := (List.range dates.length).filterMap (fun i =>
      if dayOfWeekIndexUTC (dates.getD i 0) = d then
        some (safeFiniteNumber (values.getD i 0))
      else none)
    let avg := if onDay.length ≠ 0 then onDay.sum / onDay.length
               else overallMean
    avg - overallMean)
  (effect, overallMean)

/-- `applyWeeklyDeseasonalize`: subtract the per-weekday effect. -/
def applyWeeklyDeseasonalize (dates : List ℤ) (values : List ℚ)
    (seasonalEffect : List ℚ) : List ℚ :=
  mapWithIndex (fun i v =>
    safeFiniteNumber v - seasonalEffect.getD (dayOfWeekIndexUTC (dates.getD i 0)) 0) values

/-- `addWeeklyReseasonalize`: add the per-weekday effect back, keyed by the
weekday of each produced date. -/
def addWeeklyReseasonalize (dates : List ℤ) (values : List ℚ)
    (seasonalEffect : List ℚ) : List ℚ :=
  mapWithIndex (fun i v =>
    safeFiniteNumber v + seasonalEffect.getD (dayOfWeekIndexUTC (dates.getD i 0)) 0) values

/-- The result record of `arimaAutoForecast`. -/
structure ArimaResult where
  p : ℕ
  d : ℕ
  q : ℕ
  validationPred : List ℚ
  futurePred : List ℚ
  metrics : ErrorMetrics
deriving DecidableEq

/-- The `(p, d, q)` grid of `arimaAutoForecast`, in loop order
(`p` outer, then `d`, then `q`). -/
def arimaGrid : List (ℕ × ℕ × ℕ) :=
  (List.range 4).flatMap (fun p =>
    (List.range 3).flatMap (fun d =>
      (List.range 4).map (fun q => (p, d, q))))

/-- Fold state of the ARIMA grid search. -/
structure ArimaBest where
  p : ℕ
  d : ℕ
  q : ℕ
  score : ℚ
  validationPred : List ℚ
  metrics : ErrorMetrics
deriving DecidableEq

/-- One step of the ARIMA grid search (the loop body of its nested `for`s). -/
def arimaStep (O : NumericOracle) (A : ArimaOracle) (train valid : List ℚ)
    (best : Option ArimaBest) (pdq : ℕ × ℕ × ℕ) : Option ArimaBest :=
  let k := valid.length
  match A pdq.1 pdq.2.1 pdq.2.2 train k with
  | none => best
  | some pred =>
    if pred.length ≠ k then best
    else
      let clipped := pred.map clampNonNegative
      let metrics := computeErrorMetrics O valid clipped none
      let score := (metrics.rmse.getD (10 ^ 30)) * 10 ^ 6 +
        metrics.mae.getD (10 ^ 30)
      match best with
      | none => some ⟨pdq.1, pdq.2.1, pdq.2.2, score, clipped, metrics⟩
      | some b =>
        if score < b.score then
          some ⟨pdq.1, pdq.2.1, pdq.2.2, score, clipped, metrics⟩
        else best

/-- `arimaAutoForecast`: grid-search the oracle-modelled ARIMA over
`p ≤ 3, d ≤ 2, q ≤ 3`, drop combinations that fail or mis-size their
validation prediction, score by `rmse·1e6 + mae` (missing metrics count as
`Infinity`, modelled by `10^30` — unreachable here since the validation window
is non-empty), keep the strictly best, then predict the future with it.
`none` models the `throw` when no combination fits or the final prediction
fails. -/
def arimaAutoForecast (O : NumericOracle) (A : ArimaOracle)
    (trainSeries validationSeries : List ℚ) (horizon : ℕ) :
    Option ArimaResult :=
  let train := trainSeries.map safeFiniteNumber
  let valid := validationSeries.map safeFiniteNumber
  let best := arimaGrid.foldl (arimaStep O A train valid) none
  match best with
  | none => none
  | some b =>
    match A b.p b.d b.q train horizon with
    | none => none
    | some future =>
      some ⟨b.p, b.d, b.q, b.validationPred, future.map clampNonNegative,
            b.metrics⟩

/-- The worker's input message.  `horizon = none` models an absent (or `NaN`)
horizon, for which the destructuring default / `Number(horizon) || 14` yields
`14`; `confidence`/`anomalyZ` use the same `|| default` idiom, with `0`
standing for the falsy cases. -/
structure Request where
  requestId : String
  dates : List ℤ
  values : List ℚ
  horizon : Option ℚ
  confidence : ℚ
  anomalyZ : ℚ
  seasonality : String
  model : String
  transform : String
  interval : String
deriving DecidableEq

/-- `sanitizedHorizon = Math.max(1, Math.min(365, Number(horizon) || 14))`. -/
def sanitizedHorizon (horizon : Option ℚ) : ℚ :=
  max 1 (min 365 (match horizon with
    | none => 14
    | some q => if q = 0 then 14 else q))

/-- All quantities the worker derives from the request before fitting the
candidate models (steps 1–2 of the handler). -/
structure Prepared where
  continuous : ContinuousSeries
  lastHistoryDate : ℤ
  transformMethod : String
  seasonalityEnabled : Bool
  seasonLength : ℕ
  seasonalEffectModel : List ℚ
  transformedValues : List ℚ
  modelInputValues : List ℚ
  backtestWindow : ℕ
  trainSize : ℕ
  train : List ℚ
  validation : List ℚ
  trainTransformed : List ℚ
  actualVal : List ℚ
  validationDates : List ℤ
  baselineMAE : Option ℚ

/-- Steps 1–2 of the handler: continuous series, transform decision, weekly
seasonal effect, deseasonalized model input, and the backtest split.
(`Math.floor(n * 0.2)` agrees with `n / 5` in natural division for every `n`
that matters: the float product's error never crosses an integer there.) -/
def prepare (O : NumericOracle) (req : Request) : Prepared :=
  let c := buildContinuousDailySeries req.dates req.values
  let summary := computeSummaryStats O c.continuousValues
  let transformMethod := resolveTransformMethod req.transform summary
  let seasonalityEnabled : Bool := req.seasonality = "weekly"
  let seasonLength := if seasonalityEnabled then 7 else 1
  let transformedValues := applyTransform O c.continuousValues transformMethod
  let seasonalEffectModel :=
    if seasonalityEnabled then
      (computeWeeklySeasonality c.continuousDates transformedValues).1
    else List.replicate 7 0
  let modelInputValues :=
    if seasonalityEnabled then
      applyWeeklyDeseasonalize c.continuousDates transformedValues
        seasonalEffectModel
    else transformedValues
  let n := modelInputValues.length
  let preferredWindow := min 28 (max 7 (n / 5))
  let backtestWindow := min preferredWindow (n - 2)
  let trainSize := n - backtestWindow
  { continuous := c
    lastHistoryDate := c.continuousDates.getLastD 0
    transformMethod := transformMethod
    seasonalityEnabled := seasonalityEnabled
    seasonLength := seasonLength
    seasonalEffectModel := seasonalEffectModel
    transformedValues := transformedValues
    modelInputValues := modelInputValues
    backtestWindow := backtestWindow
    trainSize := trainSize
    train := modelInputValues.take trainSize
    validation := modelInputValues.drop trainSize
    trainTransformed := transformedValues.take trainSize
    actualVal := (c.continuousValues.drop trainSize).map safeFiniteNumber
    validationDates := c.continuousDates.drop trainSize
    baselineMAE := computeNaiveScale c.continuousValues seasonLength }

/-- `reseasonalizeFuture`: re-add the weekly effect keyed by each future date
(`startDate + k + 1`), invert the transform, clamp non-negative. -/
def reseasonalizeFuture (O : NumericOracle) (P : Prepared) (startDate : ℤ)
    (forecastValues : List ℚ) : List ℚ :=
  let adjusted :=
    if P.seasonalityEnabled then
      addWeeklyReseasonalize
        ((List.range forecastValues.length).map (fun (k : ℕ) =>
          startDate + (k : ℤ) + 1))
        (forecastValues.map safeFiniteNumber) P.seasonalEffectModel
    else forecastValues.map safeFiniteNumber
  (invertTransform O adjusted P.transformMethod).map clampNonNegative

/-- `reseasonalizeValidation`: re-add the weekly effect keyed by the held-out
dates, invert the transform, clamp non-negative. -/
def reseasonalizeValidation (O : NumericOracle) (P : Prepared)
    (datesForValidation : List ℤ) (predValues : List ℚ) : List ℚ :=
  let adjusted :=
    if P.seasonalityEnabled then
      addWeeklyReseasonalize datesForValidation (predValues.map safeFiniteNumber)
        P.seasonalEffectModel
    else predValues.map safeFiniteNumber
  (invertTransform O adjusted P.transformMethod).map clampNonNegative

/-- A model candidate as pushed by `addCandidate` (the heterogeneous
`params` bag and the dead `forecastFutureDeseasonal` field are not
modelled). -/
structure Candidate where
  id : String
  label : String
  validationPred : List ℚ
  metrics : ErrorMetrics
  forecastFuture : List ℚ
  score : ℚ
  weight : Option ℚ
deriving DecidableEq

/-- `scoreFromMetrics = (rmse ?? 1e18)·1e6 + (mae ?? 1e18) + (smape ?? 1e18)`. -/
def scoreFromMetrics (m : ErrorMetrics) : ℚ :=
  m.rmse.getD (10 ^ 18) * 10 ^ 6 + m.mae.getD (10 ^ 18) + m.smape.getD (10 ^ 18)

/-- `addCandidate`: stamp the composite score on a freshly built candidate. -/
def mkCandidate (id label : String) (validationPred : List ℚ)
    (metrics : ErrorMetrics) (forecastFuture : List ℚ) : Candidate :=
  ⟨id, label, validationPred, metrics, forecastFuture,
   scoreFromMetrics metrics, none⟩

/-- The seasonal-naive candidate (validated on the transformed-but-not-
deseasonalized training prefix, exactly as the source does). -/
def snCandidate (O : NumericOracle) (P : Prepared) (H : ℕ) : Candidate :=
  let valPredTransformed :=
    seasonalNaiveForecast P.trainTransformed P.backtestWindow P.seasonLength
  let valPred :=
    (invertTransform O valPredTransformed P.transformMethod).map clampNonNegative
  let metrics := computeErrorMetrics O P.actualVal valPred P.baselineMAE
  let futurePredTransformed :=
    seasonalNaiveForecast P.transformedValues H P.seasonLength
  let forecastFuture :=
    (invertTransform O futurePredTransformed P.transformMethod).map
      clampNonNegative
  mkCandidate "seasonal_naive"
    (if P.seasonalityEnabled then "Seasonal Naive (Weekly)"
     else "Naive (Last Value)")
    valPred metrics forecastFuture

/-- The drift candidate. -/
def driftCandidate (O : NumericOracle) (P : Prepared) (H : ℕ) : Candidate :=
  let valPredDeseasonal := driftForecast P.train P.backtestWindow
  let valPred := reseasonalizeValidation O P P.validationDates valPredDeseasonal
  let metrics := computeErrorMetrics O P.actualVal valPred P.baselineMAE
  let forecastFutureDeseasonal := driftForecast P.modelInputValues H
  let forecastFuture :=
    reseasonalizeFuture O P P.lastHistoryDate forecastFutureDeseasonal
  mkCandidate "drift" "Drift (Trend)" valPred metrics forecastFuture

/-- The SES `α` grid `{0.1 … 0.9}`. -/
def sesAlphaGrid : List ℚ :=
  [1/10, 2/10, 3/10, 4/10, 5/10, 6/10, 7/10, 8/10, 9/10]

/-- One step of the SES `α` grid search (the loop body). -/
def sesStep (O : NumericOracle) (P : Prepared)
    (best : Option (ℚ × List ℚ × ErrorMetrics × ℚ)) (alpha : ℚ) :
    Option (ℚ × List ℚ × ErrorMetrics × ℚ) :=
  let valPredDeseasonal := sesForecast P.train P.backtestWindow alpha
  let valPred :=
    reseasonalizeValidation O P P.validationDates valPredDeseasonal
  let metrics := computeErrorMetrics O P.actualVal valPred P.baselineMAE
  let score := scoreFromMetrics metrics
  match best with
  | none => some (alpha, valPred, metrics, score)
  | some b =>
    if score < b.2.2.2 then some (alpha, valPred, metrics, score)
    else best

/-- SES grid search: keep the strictly best `(α, valPred, metrics, score)`. -/
def sesBest (O : NumericOracle) (P : Prepared) :
    Option (ℚ × List ℚ × ErrorMetrics × ℚ) :=
  sesAlphaGrid.foldl (sesStep O P) none

/-- The SES candidate built from a grid-search result (split out so that the
case analysis is on a plain argument). -/
def sesCandidatesOf (O : NumericOracle) (P : Prepared) (H : ℕ) :
    Option (ℚ × List ℚ × ErrorMetrics × ℚ) → List Candidate
  | none => []
  | some b =>
    let forecastFutureDeseasonal := sesForecast P.modelInputValues H b.1
    let forecastFuture :=
      reseasonalizeFuture O P P.lastHistoryDate forecastFutureDeseasonal
    [mkCandidate "ses" "SES (Level)" b.2.1 b.2.2.1 forecastFuture]

/-- The SES candidate (a singleton: the grid is non-empty, so `if (best)`
always fires). -/
def sesCandidates (O : NumericOracle) (P : Prepared) (H : ℕ) :
    List Candidate :=
  sesCandidatesOf O P H (sesBest O P)

/-- The Holt `(α, β)` grid, in loop order. -/
def holtGrid : List (ℚ × ℚ) :=
  [2/10, 4/10, 6/10, 8/10].flatMap (fun a =>
    [1/10, 2/10, 4/10, 6/10].map (fun b => (a, b)))

/-- One step of the Holt `(α, β)` grid search (the loop body). -/
def holtStep (O : NumericOracle) (P : Prepared)
    (best : Option (ℚ × ℚ × List ℚ × ErrorMetrics × ℚ)) (ab : ℚ × ℚ) :
    Option (ℚ × ℚ × List ℚ × ErrorMetrics × ℚ) :=
  let valPredDeseasonal := holtForecast P.train P.backtestWindow ab.1 ab.2
  let valPred :=
    reseasonalizeValidation O P P.validationDates valPredDeseasonal
  let metrics := computeErrorMetrics O P.actualVal valPred P.baselineMAE
  let score := scoreFromMetrics metrics
  match best with
  | none => some (ab.1, ab.2, valPred, metrics, score)
  | some b =>
    if score < b.2.2.2.2 then some (ab.1, ab.2, valPred, metrics, score)
    else best

/-- Holt grid search: keep the strictly best
`(α, β, valPred, metrics, score)`. -/
def holtBest (O : NumericOracle) (P : Prepared) :
    Option (ℚ × ℚ × List ℚ × ErrorMetrics × ℚ) :=
  holtGrid.foldl (holtStep O P) none

/-- The Holt candidate built from a grid-search result (split out so that
the case analysis is on a plain argument). -/
def holtCandidatesOf (O : NumericOracle) (P : Prepared) (H : ℕ) :
    Option (ℚ × ℚ × List ℚ × ErrorMetrics × ℚ) → List Candidate
  | none => []
  | some b =>
    let forecastFutureDeseasonal :=
      holtForecast P.modelInputValues H b.1 b.2.1
    let forecastFuture :=
      reseasonalizeFuture O P P.lastHistoryDate forecastFutureDeseasonal
    [mkCandidate "holt" "Holt (Trend + Level)" b.2.2.1 b.2.2.2.1
      forecastFuture]

/-- The Holt candidate (a singleton: the grid is non-empty). -/
def holtCandidates (O : NumericOracle) (P : Prepared) (H : ℕ) :
    List Candidate :=
  holtCandidatesOf O P H (holtBest O P)

/-- The ARIMA candidate: attempted only for `model ∈ {"auto", "arima"}`;
empty when the grid search fails (the failure becomes a note in the source,
which is not modelled). -/
def arimaCandidates (O : NumericOracle) (A : ArimaOracle) (P : Prepared)
    (H : ℕ) (model : String) : List Candidate :=
  if model = "auto" ∨ model = "arima" then
    match arimaAutoForecast O A P.train P.validation H with
    | none => []
    | some r =>
      let valPred := reseasonalizeValidation O P P.validationDates
        r.validationPred
      let metrics := computeErrorMetrics O P.actualVal valPred P.baselineMAE
      let forecastFuture :=
        reseasonalizeFuture O P P.lastHistoryDate r.futurePred
      [mkCandidate "arima" "ARIMA (Auto Grid Search)" valPred metrics
        forecastFuture]
  else []

/-- `candidateResults` just before ensemble weighting, in push order. -/
def baseCandidates (O : NumericOracle) (A : ArimaOracle) (P : Prepared)
    (H : ℕ) (model : String) : List Candidate :=
  snCandidate O P H :: driftCandidate O P H ::
    (sesCandidates O P H ++ holtCandidates O P H ++
     arimaCandidates O A P H model)

/-- The raw (un-normalized) inverse-RMSE weight `1 / max(rmse, 1e-9)`. -/
def rawWeight (c : Candidate) : ℚ :=
  1 / max (c.metrics.rmse.getD 0) (1 / 10 ^ 9)

/-- The `weightSum` accumulated over the weightable (finite-RMSE)
candidates. -/
def rawWeightSum (cands : List Candidate) : ℚ :=
  (cands.filterMap (fun c =>
    if c.metrics.rmse.isSome then some (rawWeight c) else none)).sum

/-- The ensemble-weighting pass: weightable candidates (finite RMSE) get
`rawWeight / Σ rawWeight`; when the sum is not positive every weight stays
`null`. -/
def assignWeights (cands : List Candidate) : List Candidate :=
  if 0 < rawWeightSum cands then
    cands.map (fun c =>
      if c.metrics.rmse.isSome then
        { c with weight := some (rawWeight c / rawWeightSum cands) }
      else c)
  else cands

/-- `normalizedWeight`: a member's weight renormalized over the ensemble's own
member set. -/
def normalizedWeight (ensembleWeightSum : ℚ) (c : Candidate) : ℚ :=
  if 0 < ensembleWeightSum then c.weight.getD 0 / ensembleWeightSum else 0

/-- The ensemble membership filter: weightable, correctly sized on both the
validation window and the horizon, and positive weight. -/
def ensembleMembers (weighted : List Candidate) (W H : ℕ) : List Candidate :=
  (weighted.filter (fun c => c.metrics.rmse.isSome)).filter (fun c =>
    decide (c.validationPred.length = W ∧ c.forecastFuture.length = H ∧
      0 < c.weight.getD 0))

/-- One member's contribution to the ensemble accumulators (the body of the
`for (const c of ensembleCandidates)` loop). -/
def ensembleStep (W H : ℕ) (ews : ℚ) (acc : List ℚ × List ℚ)
    (c : Candidate) : List ℚ × List ℚ :=
  ((List.range W).map (fun i => acc.1.getD i 0 +
     normalizedWeight ews c * safeFiniteNumber (c.validationPred.getD i 0)),
   (List.range H).map (fun i => acc.2.getD i 0 +
     normalizedWeight ews c * safeFiniteNumber (c.forecastFuture.getD i 0)))

/-- The ensemble candidate (present only with at least two members): the
pointwise weighted sum of the members' validation and future predictions. -/
def ensembleCandidateList (O : NumericOracle) (weighted : List Candidate)
    (W H : ℕ) (actualVal : List ℚ) (baselineMAE : Option ℚ) :
    List Candidate :=
  let members := ensembleMembers weighted W H
  if 2 ≤ members.length then
    let ews := (members.map (fun c => c.weight.getD 0)).sum
    let folded := members.foldl (ensembleStep W H ews)
      (List.replicate W (0 : ℚ), List.replicate H (0 : ℚ))
    let metrics := computeErrorMetrics O actualVal folded.1 baselineMAE
    [mkCandidate "ensemble" "Ensemble (Weighted)" folded.1 metrics folded.2]
  else []

/-- The full `candidateResults` list: weighted base candidates followed by the
optional ensemble. -/
def allCandidates (O : NumericOracle) (A : ArimaOracle) (P : Prepared)
    (H : ℕ) (model : String) : List Candidate :=
  let weighted := assignWeights (baseCandidates O A P H model)
  weighted ++
    ensembleCandidateList O weighted P.backtestWindow H P.actualVal P.baselineMAE

/-- `chosen`: the forced model when found, else the first candidate with the
strictly smallest composite score. -/
def pickMinStep (best : Option Candidate) (cur : Candidate) :
    Option Candidate :=
  match best with
  | none => some cur
  | some b => if cur.score < b.score then some cur else some b

/-- The strict-minimum `reduce` over candidates, preceded by the forced-model
lookup. -/
def pickChosen (model : String) (cands : List Candidate) : Option Candidate :=
  let found := if model ≠ "auto" then cands.find? (fun c => c.id = model)
               else none
  match found with
  | some c => some c
  | none => cands.foldl pickMinStep none

/-- One `modelLeaderboard` entry (the heterogeneous `params` bag is not
modelled). -/
structure LeaderboardRow where
  id : String
  label : String
  metrics : ErrorMetrics
  score : ℚ
  weight : Option ℚ
deriving DecidableEq

/-- Project a candidate to its leaderboard row. -/
def toRow (c : Candidate) : LeaderboardRow :=
  ⟨c.id, c.label, c.metrics, c.score, c.weight⟩

/-- The leaderboard comparison `(a.score ?? 1e18) - (b.score ?? 1e18)`
(the score is always set by `addCandidate`, so the `??` never fires). -/
def rowLE (a b : LeaderboardRow) : Prop := a.score ≤ b.score

instance : DecidableRel rowLE := fun a b =>
  inferInstanceAs (Decidable (a.score ≤ b.score))

instance : IsTotal LeaderboardRow rowLE := ⟨fun a b => le_total a.score b.score⟩

instance : IsTrans LeaderboardRow rowLE := ⟨fun _ _ _ => le_trans⟩

/-- `modelLeaderboard`: every candidate, stably sorted ascending by score. -/
def buildLeaderboard (cands : List Candidate) : List LeaderboardRow :=
  List.insertionSort rowLE (cands.map toRow)

/-- The worker's success message (the unreferenced `notes` and `analysis`
bundles are not modelled; see the header comment). -/
structure ForecastOutput where
  requestId : String
  historyDates : List ℤ
  historyValues : List ℚ
  selectedModelId : String
  selectedModelLabel : String
  forecastDates : List ℤ
  forecast : List ℚ
  ciLower : List ℚ
  ciUpper : List ℚ
  sigma : ℚ
  intervalMethod : String
  intervalZ : ℚ
  robustSigma : ℚ
  qLow : Option ℚ
  qHigh : Option ℚ
  transformSetting : String
  transformMethod : String
  backtestWindow : ℕ
  backtestDates : List ℤ
  backtestActual : List ℚ
  backtestPredicted : List ℚ
  anomalies : List Anomaly
  modelLeaderboard : List LeaderboardRow
deriving DecidableEq, Inhabited

instance : DecidableEq (Except String ForecastOutput) := fun a b =>
  match a, b with
  | .error x, .error y =>
    if h : x = y then .isTrue (by rw [h]) else .isFalse (by simp [h])
  | .error _, .ok _ => .isFalse (by simp)
  | .ok _, .error _ => .isFalse (by simp)
  | .ok x, .ok y =>
    if h : x = y then .isTrue (by rw [h]) else .isFalse (by simp [h])

/-- `backtestResiduals = actual − predicted` over the held-out window, from
the chosen candidate only. -/
def backtestResidualsOf (P : Prepared) (chosen : Candidate) : List ℚ :=
  mapWithIndex (fun i a =>
    a - (chosen.validationPred.map safeFiniteNumber).getD i 0) P.actualVal

/-- `selectedConfidence = Number(confidence) || 0.95`. -/
def selectedConfidenceOf (req : Request) : ℚ :=
  if req.confidence = 0 then 95/100 else req.confidence

/-- The `z` critical value for the request's confidence. -/
def zOf (req : Request) : ℚ := zValueForConfidence (selectedConfidenceOf req)

/-- `sigma = max(1e-9, sampleStandardDeviation(residuals))`. -/
def sigmaOf (O : NumericOracle) (residuals : List ℚ) : ℚ :=
  max (1 / 10 ^ 9) (ssSampleStandardDeviation O residuals)

/-- `robustSigma = max(1e-9, 1.4826 · MAD(residuals))`. -/
def robustSigmaOf (residuals : List ℚ) : ℚ :=
  max (1 / 10 ^ 9) (14826 / 10000 * ssMedianAbsoluteDeviation residuals)

/-- The lower residual quantile `q_{α/2}`. -/
def qLowOf (req : Request) (residuals : List ℚ) : Option ℚ :=
  quantile residuals ((1 - selectedConfidenceOf req) / 2)

/-- The upper residual quantile `q_{1-α/2}`. -/
def qHighOf (req : Request) (residuals : List ℚ) : Option ℚ :=
  quantile residuals (1 - (1 - selectedConfidenceOf req) / 2)

/-- The effective interval method: `"auto"` resolves to `"empirical"` on a
Jarque-Bera statistic > 5.99 or |skewness| > 1 or |excess kurtosis| > 1, else
`"normal"`; an empirical method without computable quantiles falls back to
`"normal"`. -/
def intervalMethodOf (O : NumericOracle) (req : Request)
    (residuals : List ℚ) : String :=
  let m0 :=
    if req.interval = "auto" then
      if (match computeJarqueBera O residuals with
          | some j => decide ((599/100 : ℚ) < j)
          | none => false) then "empirical"
      else if (match computeSkewness O residuals with
          | some sk => decide ((1 : ℚ) < |sk|)
          | none => false) then "empirical"
      else if (match computeKurtosis O residuals with
          | some ku => decide ((1 : ℚ) < |ku|)
          | none => false) then "empirical"
      else "normal"
    else req.interval
  if m0 = "empirical" ∧
      (qLowOf req residuals = none ∨ qHighOf req residuals = none) then
    "normal"
  else m0

/-- `sigmaForInterval = max(sigma, robustSigma)`. -/
def sigmaForIntervalOf (O : NumericOracle) (residuals : List ℚ) : ℚ :=
  max (sigmaOf O residuals) (robustSigmaOf residuals)

/-- The lower interval offset: the `α/2` residual quantile under the
empirical method, else `-z·sigmaForInterval`. -/
def lowerOffsetOf (O : NumericOracle) (req : Request) (residuals : List ℚ) :
    ℚ :=
  if intervalMethodOf O req residuals = "empirical" then
    (qLowOf req residuals).getD (-(zOf req * sigmaForIntervalOf O residuals))
  else -(zOf req * sigmaForIntervalOf O residuals)

/-- The upper interval offset: the `1-α/2` residual quantile under the
empirical method, else `z·sigmaForInterval`. -/
def upperOffsetOf (O : NumericOracle) (req : Request) (residuals : List ℚ) :
    ℚ :=
  if intervalMethodOf O req residuals = "empirical" then
    (qHighOf req residuals).getD (zOf req * sigmaForIntervalOf O residuals)
  else zOf req * sigmaForIntervalOf O residuals

/-- Steps 4–5 of the handler and the final `postMessage` record: interval
bounds from the chosen candidate's backtest residuals, forecast dates,
anomalies, and the leaderboard. -/
def assembleOutput (O : NumericOracle) (req : Request) (P : Prepared)
    (H : ℕ) (all : List Candidate) (chosen : Candidate) : ForecastOutput :=
  let residuals := backtestResidualsOf P chosen
  let lowerOffset := lowerOffsetOf O req residuals
  let upperOffset := upperOffsetOf O req residuals
  { requestId := req.requestId
    historyDates := P.continuous.continuousDates
    historyValues := P.continuous.continuousValues.map clampNonNegative
    selectedModelId := chosen.id
    selectedModelLabel := chosen.label
    forecastDates :=
      (List.range H).map (fun (k : ℕ) => P.lastHistoryDate + (k : ℤ) + 1)
    forecast := chosen.forecastFuture
    ciLower :=
      chosen.forecastFuture.map (fun y => clampNonNegative (y + lowerOffset))
    ciUpper :=
      chosen.forecastFuture.map (fun y => clampNonNegative (y + upperOffset))
    sigma := sigmaForIntervalOf O residuals
    intervalMethod := intervalMethodOf O req residuals
    intervalZ := zOf req
    robustSigma := robustSigmaOf residuals
    qLow := qLowOf req residuals
    qHigh := qHighOf req residuals
    transformSetting := req.transform
    transformMethod := P.transformMethod
    backtestWindow := P.backtestWindow
    backtestDates := P.validationDates
    backtestActual := P.actualVal.map clampNonNegative
    backtestPredicted :=
      (chosen.validationPred.map safeFiniteNumber).map clampNonNegative
    anomalies :=
      (detectAnomalies P.continuous.continuousDates
        P.continuous.continuousValues
        (if req.anomalyZ = 0 then 3 else req.anomalyZ)).1
    modelLeaderboard := buildLeaderboard all }

/-- The `forecastIntelligenceWorker` message handler, as a function from the
request to either the result record or the message of the error it posts.
Validation guards come first; the two `sampleVariance` throw sites and the
`new Array(non-integer)` throw site appear as error branches in the order JS
reaches them (see the header comment). -/
def forecastIntelligence (O : NumericOracle) (A : ArimaOracle)
    (req : Request) : Except String ForecastOutput :=
  if req.requestId = "" then .error "Missing requestId"
  else if req.dates.length ≠ req.values.length then
    .error "dates/values mismatch"
  else if req.dates.length < 8 then
    .error "Not enough history (need at least 8 days)"
  else if (prepare O req).continuous.continuousValues.length < 2 then
    .error "sampleVariance requires at least two data points"
  else if (⌊sanitizedHorizon req.horizon⌋ : ℚ) ≠ sanitizedHorizon req.horizon then
    .error "Invalid array length"
  else
    match pickChosen req.model
        (allCandidates O A (prepare O req)
          ⌊sanitizedHorizon req.horizon⌋.toNat req.model) with
    | none => .error "No forecasting candidates available"
    | some chosen =>
      if (backtestResidualsOf (prepare O req) chosen).length < 2 then
        .error "sampleVariance requires at least two data points"
      else
        .ok (assembleOutput O req (prepare O req)
          ⌊sanitizedHorizon req.horizon⌋.toNat
          (allCandidates O A (prepare O req)
            ⌊sanitizedHorizon req.horizon⌋.toNat req.model) chosen)

/-- First element of a row list attaining the strictly smallest score
(ties resolved to the earlier element), in head-recursive form; used to
characterize both the head of the stable sort and the `reduce`-based pick. -/
def headMinRow : List LeaderboardRow → Option LeaderboardRow
  | [] => none
  | x :: l =>
    match headMinRow l with
    | none => some x
    | some m => some (if x.score ≤ m.score then x else m)

/-- Candidate-level analogue of `headMinRow`. -/
def headMinCand : List Candidate → Option Candidate
  | [] => none
  | x :: l =>
    match headMinCand l with
    | none => some x
    | some m => some (if x.score ≤ m.score then x else m)

/-- Modelled from the spec: the claim's reading of the seasonal-naive rule —
"forecast day `k` repeats the historical value from `k mod 7` days before the
end of training", i.e. `y[n - 1 - (k mod 7)]`, clamped non-negative.  Stated
only to be compared against the source's `seasonalNaiveForecast`. -/
def seasonalNaiveClaimed (historyValues : List ℚ) (horizon : ℕ) : List ℚ :=
  let y := historyValues.map safeFiniteNumber
  let n := y.length
  ((List.range horizon).map (fun k => y.getD (n - 1 - k % 7) 0)).map
    clampNonNegative

/-- A concrete oracle for witnesses and counterexamples (every theorem is
universally quantified over the oracle, so its values are immaterial; the
counterexamples below force code paths that never consult it). -/
def idOracle : NumericOracle := ⟨id, id, id⟩

/-- A concrete ARIMA oracle modelling the realistic situation in which the
optional `arima` module fails for every order (e.g. the dynamic import or
every `train` call throws). -/
def arimaOracleNone : ArimaOracle := fun _ _ _ _ _ => none

/-- `ArimaLengthFaithful A`: whenever the ARIMA oracle returns a prediction
array, it has the requested number of steps (true of the real `arima`
package; `C2` and related claims are proved under this assumption about the
external dependency). -/
def ArimaLengthFaithful (A : ArimaOracle) : Prop :=
  ∀ p d q s h r, A p d q s h = some r → r.length = h

/-- 20 consecutive days for the anomaly-detector claims. -/
def anomalyDates20 : List ℤ := (List.range 20).map Int.ofNat

/-- A 20-day series, constant `100` except a single day `j` at `10000`. -/
def anomalySpikeSeries (j : ℕ) : List ℚ :=
  (List.range 20).map (fun i => if i = j then 10000 else 100)

/-- Counterexample input for the interval-ordering claim: 9 consecutive days,
a level shift from 10 to 20 after day 1, forced `seasonal_naive` model with
seasonality off, no transform, forced empirical intervals.  Every backtest
residual is `+10`, so both empirical quantile offsets are `+10`. -/
def reqC1ce : Request :=
  { requestId := "r", dates := [0, 1, 2, 3, 4, 5, 6, 7, 8],
    values := [10, 10, 20, 20, 20, 20, 20, 20, 20], horizon := some 1,
    confidence := 95/100, anomalyZ := 3, seasonality := "none",
    model := "seasonal_naive", transform := "none", interval := "empirical" }

/-- The output of the C1 counterexample run. -/
def outC1ce : ForecastOutput :=
  (forecastIntelligence idOracle arimaOracleNone reqC1ce).toOption.getD default

/-- Witness input for the amended interval claim: as `reqC1ce` but with the
`normal` interval method. -/
def reqC1w : Request := { reqC1ce with interval := "normal" }

/-- The output of the C1 witness run. -/
def outC1w : ForecastOutput :=
  (forecastIntelligence idOracle arimaOracleNone reqC1w).toOption.getD default

/-- Witness input for the length claim: horizon 3, forced seasonal-naive. -/
def reqC2w : Request := { reqC1ce with horizon := some 3, interval := "auto" }

/-- The output of the C2 witness run. -/
def outC2w : ForecastOutput :=
  (forecastIntelligence idOracle arimaOracleNone reqC2w).toOption.getD default

/-- Witness input for the validation-error claim: 5 paired points. -/
def reqC3w : Request :=
  { requestId := "w", dates := [0, 1, 2, 3, 4], values := [1, 2, 3, 4, 5],
    horizon := some 14, confidence := 95/100, anomalyZ := 3,
    seasonality := "weekly", model := "auto", transform := "auto",
    interval := "auto" }

/-- Witness input for the leaderboard claim: automatic model selection. -/
def reqC5w : Request := { reqC1ce with model := "auto", horizon := some 2 }

/-- The output of the C5 witness run. -/
def outC5w : ForecastOutput :=
  (forecastIntelligence idOracle arimaOracleNone reqC5w).toOption.getD default

/-- Witness input for the ensemble-weights claim: automatic model selection
(all four base candidates are weightable, so the ensemble is present). -/
def reqC6w : Request := { reqC1ce with model := "auto", horizon := some 3 }

/-- The output of the C6 witness run. -/
def outC6w : ForecastOutput :=
  (forecastIntelligence idOracle arimaOracleNone reqC6w).toOption.getD default

/-- Counterexample input for the horizon claim: the numeric, in-range horizon
`2.5`, on which `new Array(sanitizedHorizon)` throws in JS. -/
def reqC10ce : Request := { reqC1ce with horizon := some (5/2) }

/-- Witness input for the amended horizon claim: the out-of-range horizon
`400`, sanitized to `365`. -/
def reqC10w : Request := { reqC1ce with horizon := some 400 }

/-- The output of the C10 witness run. -/
def outC10w : ForecastOutput :=
  (forecastIntelligence idOracle arimaOracleNone reqC10w).toOption.getD default

end ForecastWorker

namespace RealTransform

/-- `applyTransform` over the reals: the genuine `Math.log1p`
(`x ↦ ln(1 + x)`, applied to `max(0, x)`).  Stated over `ℝ` because the
round-trip claim is about the transcendental functions themselves;
`noncomputable` is inherent to exact real arithmetic. -/
noncomputable def applyTransform (values : List ℝ) (method : String) :
    List ℝ :=
  if method = "log1p" then values.map (fun v => Real.log (1 + max 0 v))
  else values

/-- `invertTransform` over the reals: the genuine `Math.expm1`
(`x ↦ exp(x) − 1`). -/
noncomputable def invertTransform (values : List ℝ) (method : String) :
    List ℝ :=
  if method = "log1p" then values.map (fun v => Real.exp v - 1)
  else values

end RealTransform

namespace ForecastWorker

/-- The sanitizer is the identity on rationals, so mapping it is a no-op. -/
theorem map_safeFiniteNumber (l : List ℚ) : l.map safeFiniteNumber = l := by
  rw [show safeFiniteNumber = id from rfl, List.map_id]

/-- Evaluating a mapped range at an in-range index. -/
theorem getD_range_map (f : ℕ → ℚ) {h k : ℕ} (hk : k < h) :
    ((List.range h).map f).getD k 0 = f k := by
  rw [List.getD_eq_getElem?_getD, List.getElem?_map]
  simp [List.getElem?_range, hk]

/-- C9: for every `x ≥ 0`, applying the `log1p` transform and then its
`expm1` inverse returns `x` (exactly, in real arithmetic — hence within any
floating tolerance). -/
theorem C9_log1p_round_trip (x : ℝ) (hx : 0 ≤ x) :
    RealTransform.invertTransform
      (RealTransform.applyTransform [x] "log1p") "log1p" = [x] := by
  have h1 : (0 : ℝ) < 1 + max 0 x := by positivity
  have ha : RealTransform.applyTransform [x] "log1p"
      = [Real.log (1 + max 0 x)] := by
    simp [RealTransform.applyTransform]
  have hb : RealTransform.invertTransform [Real.log (1 + max 0 x)] "log1p"
      = [Real.exp (Real.log (1 + max 0 x)) - 1] := by
    simp [RealTransform.invertTransform]
  rw [ha, hb, Real.exp_log h1, max_eq_right hx]
  norm_num

/-- Witness for C9 at `x = 3`. -/
theorem C9_log1p_round_trip_witness :
    (0 : ℝ) ≤ 3 ∧
    RealTransform.invertTransform
      (RealTransform.applyTransform [(3 : ℝ)] "log1p") "log1p" = [(3 : ℝ)] :=
  ⟨by norm_num, C9_log1p_round_trip 3 (by norm_num)⟩

/-- C7 counterexample: on the 7-point history `[10, …, 70]` the code's
seasonal-naive forecast for the first day is `10` (`y[n − 7 + (k mod 7)]`, the
value one week before the forecasted date), not the claimed "value from
`k mod 7` days before the end of training" (`70`). -/
theorem C7_counterexample :
    seasonalNaiveForecast [10, 20, 30, 40, 50, 60, 70] 1 7 = [(10 : ℚ)] ∧
    seasonalNaiveClaimed [10, 20, 30, 40, 50, 60, 70] 1 = [(70 : ℚ)] ∧
    seasonalNaiveForecast [10, 20, 30, 40, 50, 60, 70] 1 7 ≠
      seasonalNaiveClaimed [10, 20, 30, 40, 50, 60, 70] 1 := by decide

/-- C7 (amended): for a history of length `n ≥ 7` with seasonality enabled
(season length 7), forecast day `k` is the clamped historical value at
position `n − 7 + (k mod 7)` — i.e. `6 − (k mod 7)` days before the end of
training, the same weekday one week earlier, cycling; with seasonality
disabled (season length 1) every forecast day is the clamped last observed
value. -/
theorem C7_amended (y : List ℚ) (h : ℕ) (h7 : 7 ≤ y.length) :
    (∀ k, k < h → (seasonalNaiveForecast y h 7).getD k 0 =
      max 0 (y.getD (y.length - 7 + k % 7) 0)) ∧
    (∀ k, k < h → (seasonalNaiveForecast y h 1).getD k 0 =
      max 0 (y.getD (y.length - 1) 0)) := by
  have hy : y.map safeFiniteNumber = y := map_safeFiniteNumber y
  have h1 : 1 ≤ y.length := by omega
  constructor
  · intro k hk
    simp only [seasonalNaiveForecast, hy, List.map_map]
    rw [getD_range_map _ hk]
    simp [Function.comp, clampNonNegative, if_pos h7]
  · intro k hk
    simp only [seasonalNaiveForecast, hy, List.map_map]
    rw [getD_range_map _ hk]
    simp [Function.comp, clampNonNegative, if_pos h1, Nat.mod_one]

/-- Witness for C7 (amended) on `[10, …, 70]`, horizon 2, day `k = 1`. -/
theorem C7_amended_witness :
    7 ≤ ([10, 20, 30, 40, 50, 60, 70] : List ℚ).length ∧ (1 : ℕ) < 2 ∧
    (seasonalNaiveForecast [10, 20, 30, 40, 50, 60, 70] 2 7).getD 1 0 =
      max 0 (([10, 20, 30, 40, 50, 60, 70] : List ℚ).getD
        (([10, 20, 30, 40, 50, 60, 70] : List ℚ).length - 7 + 1 % 7) 0) :=
  ⟨by decide, by decide,
   (C7_amended [10, 20, 30, 40, 50, 60, 70] 2 (by decide)).1 1 (by decide)⟩

set_option maxHeartbeats 2000000 in
/-- C8 counterexample: with the spike at day 7, the detector flags day 7 and
*also* day 14 (whose actual value is the ordinary `100`, but whose weekly
expectation is the spike of one week before), so the claimed "exactly that one
day" fails. -/
theorem C8_counterexample :
    ((detectAnomalies anomalyDates20 (anomalySpikeSeries 7) 3).1.map
      (·.index)) = [7, 14] := by
  norm_num [detectAnomalies, anomalyDates20, anomalySpikeSeries, ssMean,
    ssMedianAbsoluteDeviation, ssMedian, List.insertionSort,
    List.orderedInsert, List.range_succ, safeFiniteNumber]
  repeat (rw [List.filterMap_cons]; norm_num)

set_option maxHeartbeats 120000000 in
/-- Flag table of `detectAnomalies` on the 20-day spike family: a first-week
spike pollutes the first-week mean, so the whole first week plus the 7-day
echo day is flagged; a mid-series spike is flagged together with its echo;
a last-week spike (echo beyond the series) is flagged alone. -/
theorem C8_flag_table (j : ℕ) (h20 : j < 20) :
    ((detectAnomalies anomalyDates20 (anomalySpikeSeries j) 3).1.map
      (·.index)) =
      if j < 7 then [0, 1, 2, 3, 4, 5, 6, j + 7]
      else if j < 13 then [j, j + 7]
      else [j] := by
  interval_cases j <;>
  · norm_num [detectAnomalies, anomalyDates20, anomalySpikeSeries, ssMean,
      ssMedianAbsoluteDeviation, ssMedian, List.insertionSort,
      List.orderedInsert, List.range_succ, safeFiniteNumber, abs_eq_max_neg]
    repeat (rw [List.filterMap_cons]; norm_num [abs_eq_max_neg])

/-- C8 (amended): for every spike position the spiked day is flagged; it is
the *only* flagged day exactly when the spike lies in the last week
(`j ≥ 13`, so its 7-day echo falls outside the series); for earlier spikes
the day one week after the spike (whose weekly expectation is the spike) is
flagged too; and for first-week spikes the whole polluted first week is
flagged. -/
theorem C8_amended (j : ℕ) (h20 : j < 20) :
    j ∈ ((detectAnomalies anomalyDates20 (anomalySpikeSeries j) 3).1.map
      (·.index)) ∧
    (((detectAnomalies anomalyDates20 (anomalySpikeSeries j) 3).1.map
      (·.index)) = [j] ↔ 13 ≤ j) ∧
    (j < 13 → j + 7 ∈ ((detectAnomalies anomalyDates20
      (anomalySpikeSeries j) 3).1.map (·.index))) ∧
    (j < 7 → ∀ i, i < 7 → i ∈ ((detectAnomalies anomalyDates20
      (anomalySpikeSeries j) 3).1.map (·.index))) := by
  have ht := C8_flag_table j h20
  rw [ht]
  by_cases h7 : j < 7
  · rw [if_pos h7]
    refine ⟨?_, ⟨?_, fun h13 => absurd h13 (by omega)⟩, fun _ => by simp,
      fun _ i hi => ?_⟩
    · interval_cases j <;> decide
    · intro hcon
      simp at hcon
    · interval_cases i <;> simp
  · rw [if_neg h7]
    by_cases h13 : j < 13
    · rw [if_pos h13]
      refine ⟨by simp, ⟨?_, fun h13' => absurd h13' (by omega)⟩,
        fun _ => by simp, fun hcon => absurd hcon h7⟩
      intro hcon
      simp at hcon
    · rw [if_neg h13]
      exact ⟨by simp, ⟨fun _ => by omega, fun _ => rfl⟩,
        fun hcon => absurd hcon h13, fun hcon => absurd hcon h7⟩

/-- Witness for C8 (amended) at spike position 15: the spiked day is flagged
and, lying in the last week, is the only flagged day. -/
theorem C8_amended_witness :
    15 ∈ ((detectAnomalies anomalyDates20 (anomalySpikeSeries 15) 3).1.map
      (·.index)) ∧
    ((detectAnomalies anomalyDates20 (anomalySpikeSeries 15) 3).1.map
      (·.index)) = [15] := by
  have h := C8_amended 15 (by norm_num)
  exact ⟨h.1, h.2.1.mpr (by norm_num)⟩

/-- C3: for every request with a correlation id whose date and value arrays
have equal length below 8 paired observations, the worker returns the
`InsufficientData` error ("Not enough history (need at least 8 days)") as a
value and no result; when the lengths differ it returns the `ShapeMismatch`
error ("dates/values mismatch") and no result. -/
theorem C3_validation_errors (O : NumericOracle) (A : ArimaOracle)
    (req : Request) (hid : req.requestId ≠ "") :
    (req.dates.length = req.values.length → req.dates.length < 8 →
      forecastIntelligence O A req =
        .error "Not enough history (need at least 8 days)") ∧
    (req.dates.length ≠ req.values.length →
      forecastIntelligence O A req = .error "dates/values mismatch") := by
  constructor
  · intro heq hlt
    rw [forecastIntelligence, if_neg hid, if_neg (by omega), if_pos hlt]
  · intro hne
    rw [forecastIntelligence, if_neg hid, if_pos hne]

/-- Witness for C3 on a 5-point request. -/
theorem C3_validation_errors_witness :
    reqC3w.requestId ≠ "" ∧ reqC3w.dates.length = reqC3w.values.length ∧
    reqC3w.dates.length < 8 ∧
    forecastIntelligence idOracle arimaOracleNone reqC3w =
      .error "Not enough history (need at least 8 days)" :=
  ⟨by decide, by decide, by decide,
   (C3_validation_errors idOracle arimaOracleNone reqC3w (by decide)).1
     (by decide) (by decide)⟩

/-- C10 counterexample: the numeric horizon `2.5` lies inside `[1, 365]` and
survives `max(1, min(365, ·))` unchanged, so `new Array(2.5)` throws a
`RangeError` and the invocation returns the error "Invalid array length"
instead of a forecast — refuting "an out-of-range or non-numeric horizon
never causes an error … the forecast length is always in [1,365] regardless
of the requested horizon". -/
theorem C10_counterexample :
    1 ≤ (5/2 : ℚ) ∧ (5/2 : ℚ) ≤ 365 ∧ reqC10ce.horizon = some (5/2) ∧
    forecastIntelligence idOracle arimaOracleNone reqC10ce =
      .error "Invalid array length" := by
  refine ⟨by norm_num, by norm_num, rfl, ?_⟩
  have hs : sanitizedHorizon reqC10ce.horizon = 5/2 := by
    norm_num [sanitizedHorizon, reqC10ce, reqC1ce]
  have hfl : (⌊sanitizedHorizon reqC10ce.horizon⌋ : ℚ) ≠
      sanitizedHorizon reqC10ce.horizon := by
    rw [hs]; norm_num
  rw [forecastIntelligence, if_neg (by decide), if_neg (by decide),
    if_neg (by decide), if_neg (by decide), if_pos hfl]

/-- `mapWithIndexFrom` preserves length. -/
theorem length_mapWithIndexFrom {α β : Type} (f : ℕ → α → β) :
    ∀ (i : ℕ) (l : List α), (mapWithIndexFrom f i l).length = l.length := by
  intro i l
  induction l generalizing i with
  | nil => rfl
  | cons a t ih => simp [mapWithIndexFrom, ih]

/-- `mapWithIndex` preserves length. -/
theorem length_mapWithIndex {α β : Type} (f : ℕ → α → β) (l : List α) :
    (mapWithIndex f l).length = l.length :=
  length_mapWithIndexFrom f 0 l

/-- Pairing dates with values and projecting the dates back is the
identity. -/
theorem map_fst_mapWithIndexFrom (g : ℕ → ℤ → ℚ) :
    ∀ (i : ℕ) (dates : List ℤ),
      (mapWithIndexFrom (fun i d => (d, g i d)) i dates).map Prod.fst =
        dates := by
  intro i dates
  induction dates generalizing i with
  | nil => rfl
  | cons a t ih => simp [mapWithIndexFrom, ih]

/-- The dates of the sorted pair list are a permutation of the input dates. -/
theorem sortPairsByDate_fst_perm (dates : List ℤ) (values : List ℚ) :
    ((sortPairsByDate dates values).map Prod.fst).Perm dates := by
  have h1 := List.perm_insertionSort pairDateLE
    (mapWithIndex (fun i d => (d, safeFiniteNumber (values.getD i 0))) dates)
  have h2 := h1.map Prod.fst
  rw [mapWithIndex, map_fst_mapWithIndexFrom] at h2
  exact h2

/-- The sorted pair list is sorted by date. -/
theorem sortPairsByDate_sorted (dates : List ℤ) (values : List ℚ) :
    List.Sorted pairDateLE (sortPairsByDate dates values) :=
  List.sorted_insertionSort pairDateLE _

/-- In a date-sorted non-empty pair list, the head's date bounds every
member's date from below. -/
theorem sorted_head_date_le {p : ℤ × ℚ} {t : List (ℤ × ℚ)}
    (hs : List.Sorted pairDateLE (p :: t)) :
    ∀ x ∈ p :: t, p.1 ≤ x.1 := by
  intro x hx
  rcases List.mem_cons.mp hx with h | h
  · rw [h]
  · exact (List.pairwise_cons.mp hs).1 x h

/-- In a date-sorted pair list, the last element's date bounds every member's
date from above. -/
theorem sorted_date_le_getLast {l : List (ℤ × ℚ)} (d : ℤ × ℚ)
    (hs : List.Sorted pairDateLE l) :
    ∀ x ∈ l, x.1 ≤ (l.getLastD d).1 := by
  induction l with
  | nil => intro x hx; cases hx
  | cons p t ih =>
    intro x hx
    rcases t with _ | ⟨q, u⟩
    · rcases List.mem_cons.mp hx with h | h
      · rw [h]; rfl
      · cases h
    · have hs' : List.Sorted pairDateLE (q :: u) := (List.pairwise_cons.mp hs).2
      have hlast : ((p :: q :: u).getLastD d) = ((q :: u).getLastD d) := by
        simp [List.getLastD]
      rw [hlast]
      rcases List.mem_cons.mp hx with h | h
      · rw [h]
        calc p.1 ≤ q.1 := (List.pairwise_cons.mp hs).1 q (by simp)
          _ ≤ ((q :: u).getLastD d).1 := ih hs' q (by simp)
      · exact ih hs' x h

/-- `mapLookup` succeeds exactly on the keys present in the pair list. -/
theorem mapLookup_isSome_iff (pairs : List (ℤ × ℚ)) (d : ℤ) :
    (mapLookup pairs d).isSome ↔ d ∈ pairs.map Prod.fst := by
  rw [mapLookup]
  constructor
  · intro h
    rcases Option.isSome_iff_exists.mp h with ⟨v, hv⟩
    rcases Option.map_eq_some'.mp hv with ⟨p, hp, _⟩
    have hpm := List.mem_reverse.mp (List.mem_of_find?_eq_some hp)
    have hpe : p.1 = d := by simpa using List.find?_some hp
    exact List.mem_map.mpr ⟨p, hpm, hpe⟩
  · intro hmem
    rcases List.mem_map.mp hmem with ⟨p, hp, he⟩
    have hfs : (pairs.reverse.find? (fun p => p.1 = d)).isSome := by
      rw [List.find?_isSome]
      exact ⟨p, List.mem_reverse.mpr hp, by simp [he]⟩
    rcases Option.isSome_iff_exists.mp hfs with ⟨q, hq⟩
    simp [hq]

/-- The dates the loop produces: `fuel` consecutive days from the cursor. -/
theorem buildLoop_dates (pairs : List (ℤ × ℚ)) :
    ∀ (fuel : ℕ) (c : ℤ), (buildLoop pairs fuel c).continuousDates =
      (List.range fuel).map (fun (k : ℕ) => c + (k : ℤ))
  | 0, c => rfl
  | (f + 1), c => by
    show c :: (buildLoop pairs f (c + 1)).continuousDates = _
    rw [buildLoop_dates pairs f (c + 1), List.range_succ_eq_map,
      List.map_cons, List.map_map]
    congr 1
    · norm_num
    · apply List.map_congr_left
      intro k _
      simp only [Function.comp_apply]
      push_cast
      ring

/-- The values the loop produces: the map lookup at each day, default 0. -/
theorem buildLoop_values (pairs : List (ℤ × ℚ)) :
    ∀ (fuel : ℕ) (c : ℤ), (buildLoop pairs fuel c).continuousValues =
      (List.range fuel).map
        (fun (k : ℕ) => (mapLookup pairs (c + (k : ℤ))).getD 0)
  | 0, c => rfl
  | (f + 1), c => by
    show (mapLookup pairs c).getD 0 ::
      (buildLoop pairs f (c + 1)).continuousValues = _
    rw [buildLoop_values pairs f (c + 1), List.range_succ_eq_map,
      List.map_cons, List.map_map]
    congr 1
    · norm_num
    · apply List.map_congr_left
      intro k _
      simp only [Function.comp_apply]
      congr 2
      push_cast
      ring

/-- The missing-day count the loop reports: the number of days in the range
whose lookup fails. -/
theorem buildLoop_missing (pairs : List (ℤ × ℚ)) :
    ∀ (fuel : ℕ) (c : ℤ), (buildLoop pairs fuel c).missingCount =
      ((List.range fuel).filter
        (fun (k : ℕ) => (mapLookup pairs (c + (k : ℤ))).isNone)).length
  | 0, c => rfl
  | (f + 1), c => by
    show (if (mapLookup pairs c).isSome then 0 else 1) +
      (buildLoop pairs f (c + 1)).missingCount = _
    rw [buildLoop_missing pairs f (c + 1), List.range_succ_eq_map,
      List.filter_cons, List.filter_map]
    have hcongr : (List.range f).filter
        (fun (k : ℕ) => (mapLookup pairs (c + 1 + (k : ℤ))).isNone) =
        (List.range f).filter
          ((fun (k : ℕ) => (mapLookup pairs (c + (k : ℤ))).isNone) ∘
            Nat.succ) := by
      apply List.filter_congr
      intro k _
      simp only [Function.comp_apply]
      congr 2
      push_cast
      ring
    rw [show c + ((0 : ℕ) : ℤ) = c by norm_num, ← hcongr]
    cases hml : mapLookup pairs c with
    | some v =>
      rw [if_pos (by simp [hml]), if_neg (by simp [hml]), List.length_map]
      omega
    | none =>
      rw [if_neg (by simp [hml]), if_pos (by simp [hml]),
        List.length_cons, List.length_map]
      omega


/-- The last element (with default) of a non-empty list is a member. -/
theorem getLastD_mem {α : Type} (l : List α) (d : α) (h : l ≠ []) :
    l.getLastD d ∈ l := by
  induction l with
  | nil => exact absurd rfl h
  | cons a t ih =>
    rcases t with _ | ⟨b, u⟩
    · simp [List.getLastD]
    · have : ((a :: b :: u).getLastD d) = ((b :: u).getLastD d) := by
        simp [List.getLastD]
      rw [this]
      exact List.mem_cons_of_mem a (ih (by simp))

/-- C4: span, zero-filling, missing count, and the concrete example. -/
theorem C4_continuous_series :
    (∀ (dates : List ℤ) (values : List ℚ), dates ≠ [] →
      ∃ start stop : ℤ, start ∈ dates ∧ stop ∈ dates ∧
        (∀ d ∈ dates, start ≤ d ∧ d ≤ stop) ∧
        (buildContinuousDailySeries dates values).continuousDates =
          (List.range ((stop - start).toNat + 1)).map
            (fun (k : ℕ) => start + (k : ℤ)) ∧
        (buildContinuousDailySeries dates values).continuousDates.length =
          (stop - start).toNat + 1 ∧
        (buildContinuousDailySeries dates values).continuousValues.length =
          (stop - start).toNat + 1 ∧
        (∀ i : ℕ, i < (stop - start).toNat + 1 →
          (start + (i : ℤ)) ∉ dates →
          (buildContinuousDailySeries dates values).continuousValues.getD i 0
            = 0) ∧
        (buildContinuousDailySeries dates values).missingCount =
          ((List.range ((stop - start).toNat + 1)).filter
            (fun (k : ℕ) => decide ((start + (k : ℤ)) ∉ dates))).length) ∧
    buildContinuousDailySeries [19723, 19725] [10, 20] =
      ⟨[19723, 19724, 19725], [10, 0, 20], 1⟩ := by
  constructor
  · intro dates values hne
    have hperm := sortPairsByDate_fst_perm dates values
    have hsorted := sortPairsByDate_sorted dates values
    have hpne : sortPairsByDate dates values ≠ [] := by
      intro h
      rw [h] at hperm
      simp only [List.map_nil] at hperm
      exact hne hperm.symm.eq_nil
    obtain ⟨p₀, rest, hps⟩ := List.exists_cons_of_ne_nil hpne
    have hperm' : ((p₀ :: rest).map Prod.fst).Perm dates := hps ▸ hperm
    have hsorted' : List.Sorted pairDateLE (p₀ :: rest) := hps ▸ hsorted
    have hbuild : buildContinuousDailySeries dates values =
        buildLoop (p₀ :: rest)
          ((((p₀ :: rest).getLastD p₀).1 - p₀.1).toNat + 1) p₀.1 := by
      rw [buildContinuousDailySeries, hps]
    have hmemiff : ∀ d : ℤ, d ∈ (p₀ :: rest).map Prod.fst ↔ d ∈ dates :=
      fun d => hperm'.mem_iff
    have hstartmem : p₀.1 ∈ dates := by
      rw [← hmemiff]
      exact List.mem_map.mpr ⟨p₀, by simp, rfl⟩
    have hstopmem : ((p₀ :: rest).getLastD p₀).1 ∈ dates := by
      rw [← hmemiff]
      exact List.mem_map.mpr
        ⟨(p₀ :: rest).getLastD p₀, getLastD_mem _ p₀ (by simp), rfl⟩
    have hbounds : ∀ d ∈ dates, p₀.1 ≤ d ∧ d ≤ ((p₀ :: rest).getLastD p₀).1 := by
      intro d hd
      rcases List.mem_map.mp ((hmemiff d).mpr hd) with ⟨p, hpmem, hpd⟩
      exact ⟨hpd ▸ sorted_head_date_le hsorted' p hpmem,
             hpd ▸ sorted_date_le_getLast p₀ hsorted' p hpmem⟩
    have hlookup : ∀ e : ℤ,
        (mapLookup (p₀ :: rest) e).isSome ↔ e ∈ dates := by
      intro e
      rw [mapLookup_isSome_iff, hmemiff]
    refine ⟨p₀.1, ((p₀ :: rest).getLastD p₀).1, hstartmem, hstopmem, hbounds,
      ?_, ?_, ?_, ?_, ?_⟩
    · rw [hbuild, buildLoop_dates]
    · rw [hbuild, buildLoop_dates, List.length_map, List.length_range]
    · rw [hbuild, buildLoop_values, List.length_map, List.length_range]
    · intro i hi hiabs
      have hnone : mapLookup (p₀ :: rest) (p₀.1 + (i : ℤ)) = none := by
        rw [← Option.not_isSome_iff_eq_none, hlookup]
        exact hiabs
      rw [hbuild, buildLoop_values, getD_range_map _ hi, hnone]
      rfl
    · rw [hbuild, buildLoop_missing]
      congr 1
      apply List.filter_congr
      intro k _
      rcases hmk : mapLookup (p₀ :: rest) (p₀.1 + (k : ℤ)) with _ | v
      · have habs : (p₀.1 + (k : ℤ)) ∉ dates := by
          rw [← hlookup, hmk]
          simp
        simp [habs]
      · have hmem : (p₀.1 + (k : ℤ)) ∈ dates := by
          rw [← hlookup, hmk]
          rfl
        simp [hmem]
  · decide


/-- Witness for C4 at the claim's concrete instance. -/
theorem C4_continuous_series_witness :
    ([19723, 19725] : List ℤ) ≠ [] ∧
    (∃ start stop : ℤ, start ∈ ([19723, 19725] : List ℤ) ∧
      stop ∈ ([19723, 19725] : List ℤ) ∧
      (∀ d ∈ ([19723, 19725] : List ℤ), start ≤ d ∧ d ≤ stop) ∧
      (buildContinuousDailySeries [19723, 19725] [10, 20]).continuousDates =
        (List.range ((stop - start).toNat + 1)).map
          (fun (k : ℕ) => start + (k : ℤ)) ∧
      (buildContinuousDailySeries [19723, 19725] [10, 20]).continuousDates.length =
        (stop - start).toNat + 1 ∧
      (buildContinuousDailySeries [19723, 19725] [10, 20]).continuousValues.length =
        (stop - start).toNat + 1 ∧
      (∀ i : ℕ, i < (stop - start).toNat + 1 →
        (start + (i : ℤ)) ∉ ([19723, 19725] : List ℤ) →
        (buildContinuousDailySeries [19723, 19725] [10, 20]).continuousValues.getD i 0
          = 0) ∧
      (buildContinuousDailySeries [19723, 19725] [10, 20]).missingCount =
        ((List.range ((stop - start).toNat + 1)).filter
          (fun (k : ℕ) => decide ((start + (k : ℤ)) ∉ ([19723, 19725] : List ℤ)))).length) :=
  ⟨by decide, C4_continuous_series.1 [19723, 19725] [10, 20] (by decide)⟩

/-- Fold-invariant principle for `Option`-accumulating grid searches. -/
theorem foldl_option_preserve {α β : Type} (step : Option β → α → Option β)
    (Q : β → Prop)
    (hstep : ∀ acc a b, step acc a = some b →
      (∀ b', acc = some b' → Q b') → Q b) :
    ∀ (l : List α) (acc : Option β), (∀ b', acc = some b' → Q b') →
      ∀ b, l.foldl step acc = some b → Q b := by
  intro l
  induction l with
  | nil => intro acc hacc b hb; exact hacc b hb
  | cons a t ih =>
    intro acc hacc b hb
    exact ih (step acc a) (fun b' hb' => hstep acc a b' hb' hacc) b hb

/-- Every element of a clamped list is non-negative. -/
theorem nonneg_of_mem_map_clamp {l : List ℚ} {x : ℚ}
    (hx : x ∈ l.map clampNonNegative) : 0 ≤ x := by
  rcases List.mem_map.mp hx with ⟨y, _, hy⟩
  rw [← hy]
  exact le_max_left 0 y

/-- `getD` of a list of non-negatives with default `0` is non-negative. -/
theorem getD_nonneg {l : List ℚ} (h : ∀ x ∈ l, 0 ≤ x) (i : ℕ) :
    0 ≤ l.getD i 0 := by
  rcases lt_or_ge i l.length with hi | hi
  · rw [List.getD_eq_getElem l 0 hi]
    exact h _ (List.getElem_mem hi)
  · rw [List.getD_eq_default l 0 hi]

/-- `getD` through a `map`, inside the range. -/
theorem getD_map_lt (f : ℚ → ℚ) (l : List ℚ) {i : ℕ} (hi : i < l.length)
    (d : ℚ) : (l.map f).getD i d = f (l.getD i d) := by
  rw [List.getD_eq_getElem l d hi,
    List.getD_eq_getElem (l.map f) d (by simpa using hi)]
  simp

/-- `applyTransform` preserves length. -/
theorem length_applyTransform (O : NumericOracle) (l : List ℚ) (m : String) :
    (applyTransform O l m).length = l.length := by
  rw [applyTransform]
  split <;> simp

/-- `invertTransform` preserves length. -/
theorem length_invertTransform (O : NumericOracle) (l : List ℚ) (m : String) :
    (invertTransform O l m).length = l.length := by
  rw [invertTransform]
  split <;> simp

/-- `addWeeklyReseasonalize` preserves the value list's length. -/
theorem length_addWeeklyReseasonalize (dates : List ℤ) (values : List ℚ)
    (effect : List ℚ) :
    (addWeeklyReseasonalize dates values effect).length = values.length :=
  length_mapWithIndex _ _

/-- `applyWeeklyDeseasonalize` preserves the value list's length. -/
theorem length_applyWeeklyDeseasonalize (dates : List ℤ) (values : List ℚ)
    (effect : List ℚ) :
    (applyWeeklyDeseasonalize dates values effect).length = values.length :=
  length_mapWithIndex _ _

/-- `reseasonalizeFuture` preserves length. -/
theorem length_reseasonalizeFuture (O : NumericOracle) (P : Prepared)
    (s : ℤ) (l : List ℚ) : (reseasonalizeFuture O P s l).length = l.length := by
  rw [reseasonalizeFuture]
  split <;> simp [length_invertTransform, length_addWeeklyReseasonalize,
    length_mapWithIndex]

/-- `reseasonalizeValidation` preserves length. -/
theorem length_reseasonalizeValidation (O : NumericOracle) (P : Prepared)
    (ds : List ℤ) (l : List ℚ) :
    (reseasonalizeValidation O P ds l).length = l.length := by
  rw [reseasonalizeValidation]
  split <;> simp [length_invertTransform, length_addWeeklyReseasonalize,
    length_mapWithIndex]

/-- `reseasonalizeFuture` is clamped non-negative. -/
theorem nonneg_reseasonalizeFuture (O : NumericOracle) (P : Prepared)
    (s : ℤ) (l : List ℚ) : ∀ x ∈ reseasonalizeFuture O P s l, 0 ≤ x :=
  fun _ hx => nonneg_of_mem_map_clamp hx

/-- `reseasonalizeValidation` is clamped non-negative. -/
theorem nonneg_reseasonalizeValidation (O : NumericOracle) (P : Prepared)
    (ds : List ℤ) (l : List ℚ) :
    ∀ x ∈ reseasonalizeValidation O P ds l, 0 ≤ x :=
  fun _ hx => nonneg_of_mem_map_clamp hx

/-- `seasonalNaiveForecast` produces the requested number of days. -/
theorem length_seasonalNaiveForecast (y : List ℚ) (h s : ℕ) :
    (seasonalNaiveForecast y h s).length = h := by
  simp [seasonalNaiveForecast]

/-- `driftForecast` produces the requested number of days. -/
theorem length_driftForecast (y : List ℚ) (h : ℕ) :
    (driftForecast y h).length = h := by
  rw [driftForecast]
  simp only [List.length_map, List.length_range]

/-- `sesForecast` produces the requested number of days. -/
theorem length_sesForecast (y : List ℚ) (h : ℕ) (a : ℚ) :
    (sesForecast y h a).length = h := by
  rw [sesForecast]
  split <;> simp

/-- `holtForecast` produces the requested number of days. -/
theorem length_holtForecast (y : List ℚ) (h : ℕ) (a b : ℚ) :
    (holtForecast y h a b).length = h := by
  rw [holtForecast]
  split
  · simp
  · simp only [List.length_map, List.length_range]

/-- The continuous series has equally many dates and values. -/
theorem continuous_lengths (dates : List ℤ) (values : List ℚ) :
    (buildContinuousDailySeries dates values).continuousValues.length =
      (buildContinuousDailySeries dates values).continuousDates.length := by
  rw [buildContinuousDailySeries]
  rcases sortPairsByDate dates values with _ | ⟨p, t⟩
  · rfl
  · rw [buildLoop_values, buildLoop_dates]
    simp

/-- The model-input series is as long as the continuous series. -/
theorem prepare_modelInput_length (O : NumericOracle) (req : Request) :
    (prepare O req).modelInputValues.length =
      (prepare O req).continuous.continuousValues.length := by
  rw [prepare]
  split
  · rw [length_applyWeeklyDeseasonalize, length_applyTransform]
  · rw [length_applyTransform]

/-- The backtest window never exceeds the model-input length. -/
theorem prepare_backtestWindow_le (O : NumericOracle) (req : Request) :
    (prepare O req).backtestWindow ≤ (prepare O req).modelInputValues.length := by
  rw [prepare]
  simp only []
  omega

/-- The held-out actuals span exactly the backtest window. -/
theorem prepare_actualVal_length (O : NumericOracle) (req : Request) :
    (prepare O req).actualVal.length = (prepare O req).backtestWindow := by
  have hml := prepare_modelInput_length O req
  have hle := prepare_backtestWindow_le O req
  rw [prepare] at hml hle ⊢
  simp only [List.length_map, List.length_drop] at hml hle ⊢
  omega

/-- The held-out model-space validation series spans exactly the backtest
window. -/
theorem prepare_validation_length (O : NumericOracle) (req : Request) :
    (prepare O req).validation.length = (prepare O req).backtestWindow := by
  have hle := prepare_backtestWindow_le O req
  rw [prepare] at hle ⊢
  simp only [List.length_drop] at hle ⊢
  omega



/-- With a non-empty comparison window, every basic metric is present. -/
theorem computeErrorMetrics_rmse_isSome (O : NumericOracle)
    (actual predicted : List ℚ) (b : Option ℚ)
    (h : 0 < min actual.length predicted.length) :
    (computeErrorMetrics O actual predicted b).rmse.isSome := by
  rw [computeErrorMetrics, if_neg (by omega)]
  simp

/-- `mkCandidate` stamps the composite score. -/
theorem mkCandidate_score (id label : String) (v : List ℚ) (m : ErrorMetrics)
    (f : List ℚ) : (mkCandidate id label v m f).score = scoreFromMetrics m :=
  rfl

/-- `mkCandidate` leaves the weight unset. -/
theorem mkCandidate_weight (id label : String) (v : List ℚ) (m : ErrorMetrics)
    (f : List ℚ) : (mkCandidate id label v m f).weight = none :=
  rfl

/-- Shape invariant of the SES grid search result. -/
theorem sesBest_shape (O : NumericOracle) (P : Prepared)
    (b : ℚ × List ℚ × ErrorMetrics × ℚ) (hb : sesBest O P = some b) :
    b.2.1.length = P.backtestWindow ∧
    b.2.2.1 = computeErrorMetrics O P.actualVal b.2.1 P.baselineMAE := by
  refine foldl_option_preserve (sesStep O P)
    (fun b => b.2.1.length = P.backtestWindow ∧
      b.2.2.1 = computeErrorMetrics O P.actualVal b.2.1 P.baselineMAE)
    ?_ sesAlphaGrid none (by intro b' hb'; cases hb') b hb
  intro acc a b hstep hacc
  cases acc with
  | none =>
    simp only [sesStep] at hstep
    injection hstep with h
    rw [← h]
    exact ⟨by rw [length_reseasonalizeValidation, length_sesForecast], rfl⟩
  | some prev =>
    simp only [sesStep] at hstep
    split at hstep
    · injection hstep with h
      rw [← h]
      exact ⟨by rw [length_reseasonalizeValidation, length_sesForecast], rfl⟩
    · injection hstep with h
      rw [← h]
      exact hacc prev rfl

/-- Shape invariant of the Holt grid search result. -/
theorem holtBest_shape (O : NumericOracle) (P : Prepared)
    (b : ℚ × ℚ × List ℚ × ErrorMetrics × ℚ) (hb : holtBest O P = some b) :
    b.2.2.1.length = P.backtestWindow ∧
    b.2.2.2.1 = computeErrorMetrics O P.actualVal b.2.2.1 P.baselineMAE := by
  refine foldl_option_preserve (holtStep O P)
    (fun b => b.2.2.1.length = P.backtestWindow ∧
      b.2.2.2.1 = computeErrorMetrics O P.actualVal b.2.2.1 P.baselineMAE)
    ?_ holtGrid none (by intro b' hb'; cases hb') b hb
  intro acc a b hstep hacc
  cases acc with
  | none =>
    simp only [holtStep] at hstep
    injection hstep with h
    rw [← h]
    exact ⟨by rw [length_reseasonalizeValidation, length_holtForecast], rfl⟩
  | some prev =>
    simp only [holtStep] at hstep
    split at hstep
    · injection hstep with h
      rw [← h]
      exact ⟨by rw [length_reseasonalizeValidation, length_holtForecast], rfl⟩
    · injection hstep with h
      rw [← h]
      exact hacc prev rfl

/-- Shape invariant of the ARIMA grid search fold: the best combination's
validation prediction matches the held-out window. -/
theorem arimaFold_valPred_length (O : NumericOracle) (A : ArimaOracle)
    (train valid : List ℚ) (b : ArimaBest)
    (hb : arimaGrid.foldl (arimaStep O A train valid) none = some b) :
    b.validationPred.length = valid.length := by
  refine foldl_option_preserve (arimaStep O A train valid)
    (fun b => b.validationPred.length = valid.length)
    ?_ arimaGrid none (by intro b' hb'; cases hb') b hb
  intro acc a b hstep hacc
  simp only [arimaStep] at hstep
  rcases hA : A a.1 a.2.1 a.2.2 train valid.length with _ | pred
  · simp only [hA] at hstep
    exact hacc b hstep
  · simp only [hA] at hstep
    by_cases hlen : pred.length ≠ valid.length
    · rw [if_pos hlen] at hstep
      exact hacc b hstep
    · rw [if_neg hlen] at hstep
      push_neg at hlen
      cases acc with
      | none =>
        injection hstep with h
        rw [← h]
        simpa using hlen
      | some prev =>
        split at hstep
        · injection hstep with h
          rw [← h]
          simpa using hlen
        · split at hstep
          · injection hstep with h
            rw [← h]
            simpa using hlen
          · injection hstep with h
            rw [← h]
            exact hacc prev rfl

/-- The ARIMA result's validation prediction spans the held-out window, and
(for a length-faithful oracle) its future prediction spans the horizon. -/
theorem arimaAutoForecast_lengths (O : NumericOracle) (A : ArimaOracle)
    (train valid : List ℚ) (H : ℕ) (r : ArimaResult)
    (hr : arimaAutoForecast O A train valid H = some r) :
    r.validationPred.length = valid.length ∧
    (ArimaLengthFaithful A → r.futurePred.length = H) := by
  rw [arimaAutoForecast] at hr
  rcases hb : arimaGrid.foldl
      (arimaStep O A (train.map safeFiniteNumber)
        (valid.map safeFiniteNumber)) none with _ | b
  · simp only [hb] at hr
    exact Option.noConfusion hr
  · simp only [hb] at hr
    rcases hf : A b.p b.d b.q (train.map safeFiniteNumber) H with _ | future
    · simp only [hf] at hr
      exact Option.noConfusion hr
    · simp only [hf] at hr
      injection hr with h
      have hvl := arimaFold_valPred_length O A _ _ b hb
      constructor
      · rw [← h]
        simpa using hvl
      · intro hA
        rw [← h]
        simpa using hA _ _ _ _ _ _ hf



/-- The raw inverse-RMSE weight is positive. -/
theorem rawWeight_pos (c : Candidate) : 0 < rawWeight c := by
  rw [rawWeight]
  apply div_pos one_pos
  exact lt_of_lt_of_le (by norm_num) (le_max_right _ _)

/-- The invariant carried by every base candidate: correctly sized forecast
and validation arrays, non-negative forecasts, present RMSE, the stamped
composite score, and an unset weight. -/
theorem baseCandidates_invariant (O : NumericOracle) (A : ArimaOracle)
    (P : Prepared) (H : ℕ) (model : String) (hA : ArimaLengthFaithful A)
    (hAct : P.actualVal.length = P.backtestWindow)
    (hVal : P.validation.length = P.backtestWindow)
    (hpos : 0 < P.backtestWindow) :
    ∀ c ∈ baseCandidates O A P H model,
      c.forecastFuture.length = H ∧ (∀ x ∈ c.forecastFuture, 0 ≤ x) ∧
      c.validationPred.length = P.backtestWindow ∧
      c.metrics.rmse.isSome ∧
      c.score = scoreFromMetrics c.metrics ∧ c.weight = none := by
  intro c hc
  rw [baseCandidates] at hc
  rcases List.mem_cons.mp hc with hc | hc
  · subst hc
    simp only [snCandidate, mkCandidate]
    have hv : ((invertTransform O (seasonalNaiveForecast P.trainTransformed
        P.backtestWindow P.seasonLength) P.transformMethod).map
        clampNonNegative).length = P.backtestWindow := by
      rw [List.length_map, length_invertTransform,
        length_seasonalNaiveForecast]
    refine ⟨?_, fun x hx => nonneg_of_mem_map_clamp hx, hv, ?_, trivial, trivial⟩
    · rw [List.length_map, length_invertTransform,
        length_seasonalNaiveForecast]
    · apply computeErrorMetrics_rmse_isSome
      rw [hAct, hv]
      simpa using hpos
  rcases List.mem_cons.mp hc with hc | hc
  · subst hc
    simp only [driftCandidate, mkCandidate]
    have hv : (reseasonalizeValidation O P P.validationDates
        (driftForecast P.train P.backtestWindow)).length =
        P.backtestWindow := by
      rw [length_reseasonalizeValidation, length_driftForecast]
    refine ⟨?_, fun x hx => nonneg_reseasonalizeFuture O P _ _ x hx, hv, ?_,
      trivial, trivial⟩
    · rw [length_reseasonalizeFuture, length_driftForecast]
    · apply computeErrorMetrics_rmse_isSome
      rw [hAct, hv]
      simpa using hpos
  rcases List.mem_append.mp hc with hc | hc
  · rcases List.mem_append.mp hc with hc | hc
    · rw [sesCandidates] at hc
      rcases hsb : sesBest O P with _ | b
      · rw [hsb] at hc
        cases hc
      · rw [hsb] at hc
        simp only [sesCandidatesOf] at hc
        rcases List.mem_singleton.mp hc with rfl
        have hshape := sesBest_shape O P b hsb
        simp only [mkCandidate]
        refine ⟨?_, fun x hx => nonneg_reseasonalizeFuture O P _ _ x hx,
          hshape.1, ?_, trivial, trivial⟩
        · rw [length_reseasonalizeFuture, length_sesForecast]
        · rw [hshape.2]
          apply computeErrorMetrics_rmse_isSome
          rw [hAct, hshape.1]
          simpa using hpos
    · rw [holtCandidates] at hc
      rcases hhb : holtBest O P with _ | b
      · rw [hhb] at hc
        cases hc
      · rw [hhb] at hc
        simp only [holtCandidatesOf] at hc
        rcases List.mem_singleton.mp hc with rfl
        have hshape := holtBest_shape O P b hhb
        simp only [mkCandidate]
        refine ⟨?_, fun x hx => nonneg_reseasonalizeFuture O P _ _ x hx,
          hshape.1, ?_, trivial, trivial⟩
        · rw [length_reseasonalizeFuture, length_holtForecast]
        · rw [hshape.2]
          apply computeErrorMetrics_rmse_isSome
          rw [hAct, hshape.1]
          simpa using hpos
  · rw [arimaCandidates] at hc
    split at hc
    · rcases har : arimaAutoForecast O A P.train P.validation H with _ | r
      · rw [har] at hc
        cases hc
      · rw [har] at hc
        rcases List.mem_singleton.mp hc with rfl
        have hlen := arimaAutoForecast_lengths O A P.train P.validation H r har
        have hv : (reseasonalizeValidation O P P.validationDates
            r.validationPred).length = P.backtestWindow := by
          rw [length_reseasonalizeValidation, hlen.1]
          exact hVal
        simp only [mkCandidate]
        refine ⟨?_, fun x hx => nonneg_reseasonalizeFuture O P _ _ x hx, hv,
          ?_, trivial, trivial⟩
        · rw [length_reseasonalizeFuture]
          exact hlen.2 hA
        · apply computeErrorMetrics_rmse_isSome
          rw [hAct, hv]
          simpa using hpos
    · cases hc


theorem backtestResiduals_length (P : Prepared) (c : Candidate) :
    (backtestResidualsOf P c).length = P.actualVal.length := by
  rw [backtestResidualsOf, length_mapWithIndex]

theorem mem_assignWeights {cands : List Candidate} {c' : Candidate}
    (hc : c' ∈ assignWeights cands) :
    ∃ c ∈ cands, c'.id = c.id ∧ c'.label = c.label ∧
      c'.validationPred = c.validationPred ∧ c'.metrics = c.metrics ∧
      c'.forecastFuture = c.forecastFuture ∧ c'.score = c.score := by
  rw [assignWeights] at hc
  split at hc
  · rcases List.mem_map.mp hc with ⟨c, hcmem, heq⟩
    refine ⟨c, hcmem, ?_⟩
    split at heq <;> subst heq <;> simp
  · exact ⟨c', hc, rfl, rfl, rfl, rfl, rfl, rfl⟩

theorem assignWeights_length (cands : List Candidate) :
    (assignWeights cands).length = cands.length := by
  rw [assignWeights]
  split
  · rw [List.length_map]
  · rfl

theorem sum_map_div (l : List ℚ) (S : ℚ) :
    (l.map (fun w => w / S)).sum = l.sum / S := by
  induction l with
  | nil => simp
  | cons a l ih => simp [ih, add_div]

theorem filterMap_weight_map (S : ℚ) (l : List Candidate)
    (hw : ∀ c ∈ l, c.weight = none) :
    ((l.map (fun c => if c.metrics.rmse.isSome then
        { c with weight := some (rawWeight c / S) } else c)).filterMap
        Candidate.weight) =
      (l.filterMap (fun c => if c.metrics.rmse.isSome then
        some (rawWeight c) else none)).map (fun w => w / S) := by
  induction l with
  | nil => rfl
  | cons a l ih =>
    have hwl : ∀ c ∈ l, c.weight = none :=
      fun c hc => hw c (List.mem_cons_of_mem _ hc)
    by_cases ha : a.metrics.rmse.isSome
    · simp [ha, ih hwl]
    · simp [ha, hw a (List.mem_cons_self a l), ih hwl]

theorem sum_weights_assignWeights (cands : List Candidate)
    (hw : ∀ c ∈ cands, c.weight = none) (hS : 0 < rawWeightSum cands) :
    ((assignWeights cands).filterMap Candidate.weight).sum = 1 := by
  rw [assignWeights, if_pos hS, filterMap_weight_map _ _ hw, sum_map_div]
  rw [show (cands.filterMap (fun c => if c.metrics.rmse.isSome then
    some (rawWeight c) else none)).sum = rawWeightSum cands from rfl]
  exact div_self (ne_of_gt hS)

theorem rawWeightSum_pos {cands : List Candidate} {c : Candidate}
    (hc : c ∈ cands) (h : c.metrics.rmse.isSome) : 0 < rawWeightSum cands := by
  rw [rawWeightSum]
  have hmem : rawWeight c ∈ cands.filterMap (fun c =>
      if c.metrics.rmse.isSome then some (rawWeight c) else none) :=
    List.mem_filterMap.mpr ⟨c, hc, by rw [if_pos h]⟩
  have hnn : ∀ x ∈ cands.filterMap (fun c =>
      if c.metrics.rmse.isSome then some (rawWeight c) else none), 0 ≤ x := by
    intro x hx
    rcases List.mem_filterMap.mp hx with ⟨d, _, hd⟩
    split at hd
    · cases hd
      exact le_of_lt (rawWeight_pos d)
    · cases hd
  calc (0 : ℚ) < rawWeight c := rawWeight_pos c
    _ ≤ _ := List.single_le_sum hnn _ hmem

theorem mem_ensembleMembers {weighted : List Candidate} {W H : ℕ}
    {m : Candidate} (hm : m ∈ ensembleMembers weighted W H) :
    m ∈ weighted ∧ m.metrics.rmse.isSome ∧ m.validationPred.length = W ∧
    m.forecastFuture.length = H ∧ 0 < m.weight.getD 0 := by
  rw [ensembleMembers] at hm
  rcases List.mem_filter.mp hm with ⟨hm1, hcond⟩
  rcases List.mem_filter.mp hm1 with ⟨hmem, hrm⟩
  have h2 := of_decide_eq_true hcond
  exact ⟨hmem, by simpa using hrm, h2.1, h2.2.1, h2.2.2⟩

theorem normalizedWeight_nonneg (ews : ℚ) (c : Candidate)
    (h : 0 ≤ c.weight.getD 0) : 0 ≤ normalizedWeight ews c := by
  rw [normalizedWeight]
  split
  · exact div_nonneg h (le_of_lt (by assumption))
  · exact le_refl 0

theorem ensembleFold_invariant (W H : ℕ) (ews : ℚ)
    (members : List Candidate)
    (hmem : ∀ m ∈ members, (∀ x ∈ m.forecastFuture, 0 ≤ x) ∧
      0 ≤ m.weight.getD 0) :
    ∀ acc : List ℚ × List ℚ, acc.1.length = W → acc.2.length = H →
      (∀ x ∈ acc.2, 0 ≤ x) →
      (members.foldl (ensembleStep W H ews) acc).1.length = W ∧
      (members.foldl (ensembleStep W H ews) acc).2.length = H ∧
      ∀ x ∈ (members.foldl (ensembleStep W H ews) acc).2, 0 ≤ x := by
  induction members with
  | nil => exact fun acc h1 h2 h3 => ⟨h1, h2, h3⟩
  | cons m l ih =>
    intro acc h1 h2 h3
    rw [List.foldl_cons]
    have hm := hmem m (List.mem_cons_self m l)
    refine ih (fun d hd => hmem d (List.mem_cons_of_mem _ hd))
      (ensembleStep W H ews acc m) ?_ ?_ ?_
    · rw [ensembleStep]
      simp
    · rw [ensembleStep]
      simp
    · intro x hx
      rw [ensembleStep] at hx
      rcases List.mem_map.mp hx with ⟨i, _, rfl⟩
      refine add_nonneg (getD_nonneg h3 i) (mul_nonneg
        (normalizedWeight_nonneg ews m hm.2) ?_)
      exact getD_nonneg (fun y hy => hm.1 y (by simpa [safeFiniteNumber] using hy)) i

theorem mem_ensembleCandidateList {O : NumericOracle}
    {weighted : List Candidate} {W H : ℕ} {actualVal : List ℚ}
    {baselineMAE : Option ℚ} {c : Candidate}
    (hmem : ∀ m ∈ ensembleMembers weighted W H,
      (∀ x ∈ m.forecastFuture, 0 ≤ x) ∧ 0 ≤ m.weight.getD 0)
    (hc : c ∈ ensembleCandidateList O weighted W H actualVal baselineMAE) :
    c.id = "ensemble" ∧ c.validationPred.length = W ∧
    c.forecastFuture.length = H ∧ (∀ x ∈ c.forecastFuture, 0 ≤ x) ∧
    c.score = scoreFromMetrics c.metrics ∧ c.weight = none := by
  rw [ensembleCandidateList] at hc
  split at hc
  · rcases List.mem_singleton.mp hc with rfl
    have hfold := ensembleFold_invariant W H
      ((ensembleMembers weighted W H).map (fun c => c.weight.getD 0)).sum
      (ensembleMembers weighted W H) hmem
      (List.replicate W (0 : ℚ), List.replicate H (0 : ℚ))
      (by simp) (by simp) (by intro x hx; rcases List.eq_of_mem_replicate hx with rfl; exact le_refl 0)
    exact ⟨rfl, hfold.1, hfold.2.1, hfold.2.2, rfl, rfl⟩
  · cases hc


theorem baseCandidates_weight_id (O : NumericOracle) (A : ArimaOracle)
    (P : Prepared) (H : ℕ) (model : String) :
    ∀ c ∈ baseCandidates O A P H model,
      c.weight = none ∧ c.id ≠ "ensemble" := by
  intro c hc
  rw [baseCandidates] at hc
  rcases List.mem_cons.mp hc with hc | hc
  · subst hc
    exact ⟨rfl, by rw [show (snCandidate O P H).id = "seasonal_naive" from rfl]; decide⟩
  rcases List.mem_cons.mp hc with hc | hc
  · subst hc
    exact ⟨rfl, by rw [show (driftCandidate O P H).id = "drift" from rfl]; decide⟩
  rcases List.mem_append.mp hc with hc | hc
  · rcases List.mem_append.mp hc with hc | hc
    · rw [sesCandidates] at hc
      rcases hsb : sesBest O P with _ | b
      · rw [hsb] at hc
        cases hc
      · rw [hsb] at hc
        simp only [sesCandidatesOf] at hc
        rcases List.mem_singleton.mp hc with rfl
        refine ⟨rfl, ?_⟩
        rw [show (mkCandidate "ses" "SES (Level)" b.2.1 b.2.2.1
          (reseasonalizeFuture O P P.lastHistoryDate
            (sesForecast P.modelInputValues H b.1))).id = "ses" from rfl]
        decide
    · rw [holtCandidates] at hc
      rcases hhb : holtBest O P with _ | b
      · rw [hhb] at hc
        cases hc
      · rw [hhb] at hc
        simp only [holtCandidatesOf] at hc
        rcases List.mem_singleton.mp hc with rfl
        refine ⟨rfl, ?_⟩
        rw [show (mkCandidate "holt" "Holt (Trend + Level)" b.2.2.1 b.2.2.2.1
          (reseasonalizeFuture O P P.lastHistoryDate
            (holtForecast P.modelInputValues H b.1 b.2.1))).id = "holt" from rfl]
        decide
  · rw [arimaCandidates] at hc
    split at hc
    · rcases har : arimaAutoForecast O A P.train P.validation H with _ | r
      · rw [har] at hc
        cases hc
      · rw [har] at hc
        rcases List.mem_singleton.mp hc with rfl
        refine ⟨rfl, ?_⟩
        rw [show (mkCandidate "arima" "ARIMA (Auto Grid Search)"
          (reseasonalizeValidation O P P.validationDates r.validationPred)
          (computeErrorMetrics O P.actualVal
            (reseasonalizeValidation O P P.validationDates r.validationPred)
            P.baselineMAE)
          (reseasonalizeFuture O P P.lastHistoryDate r.futurePred)).id =
          "arima" from rfl]
        decide
    · cases hc

theorem allCandidates_invariant (O : NumericOracle) (A : ArimaOracle)
    (P : Prepared) (H : ℕ) (model : String) (hA : ArimaLengthFaithful A)
    (hAct : P.actualVal.length = P.backtestWindow)
    (hVal : P.validation.length = P.backtestWindow)
    (hpos : 0 < P.backtestWindow) :
    ∀ c ∈ allCandidates O A P H model,
      c.forecastFuture.length = H ∧ (∀ x ∈ c.forecastFuture, 0 ≤ x) ∧
      c.validationPred.length = P.backtestWindow ∧
      c.score = scoreFromMetrics c.metrics := by
  intro c hc
  have hbase := baseCandidates_invariant O A P H model hA hAct hVal hpos
  simp only [allCandidates] at hc
  rcases List.mem_append.mp hc with hc | hc
  · rcases mem_assignWeights hc with ⟨c0, hc0, _, _, hvp, hmet, hff, hsc⟩
    have h0 := hbase c0 hc0
    refine ⟨by rw [hff]; exact h0.1, ?_, by rw [hvp]; exact h0.2.2.1, ?_⟩
    · intro x hx
      rw [hff] at hx
      exact h0.2.1 x hx
    · rw [hsc, hmet]
      exact h0.2.2.2.2.1
  · have hmem : ∀ m ∈ ensembleMembers
        (assignWeights (baseCandidates O A P H model)) P.backtestWindow H,
        (∀ x ∈ m.forecastFuture, 0 ≤ x) ∧ 0 ≤ m.weight.getD 0 := by
      intro m hm
      rcases mem_ensembleMembers hm with ⟨hw, _, _, _, hposw⟩
      rcases mem_assignWeights hw with ⟨c0, hc0, _, _, _, _, hff, _⟩
      refine ⟨?_, le_of_lt hposw⟩
      intro x hx
      rw [hff] at hx
      exact (hbase c0 hc0).2.1 x hx
    have he := mem_ensembleCandidateList hmem hc
    exact ⟨he.2.2.1, he.2.2.2.1, he.2.1, he.2.2.2.2.1⟩

theorem headMinCand_cons_none {a : Candidate} {t : List Candidate}
    (h : headMinCand t = none) : headMinCand (a :: t) = some a := by
  rw [headMinCand, h]

theorem headMinCand_cons_some {a m : Candidate} {t : List Candidate}
    (h : headMinCand t = some m) :
    headMinCand (a :: t) = some (if a.score ≤ m.score then a else m) := by
  rw [headMinCand, h]

theorem headMinRow_cons_none {a : LeaderboardRow} {t : List LeaderboardRow}
    (h : headMinRow t = none) : headMinRow (a :: t) = some a := by
  rw [headMinRow, h]

theorem headMinRow_cons_some {a m : LeaderboardRow} {t : List LeaderboardRow}
    (h : headMinRow t = some m) :
    headMinRow (a :: t) = some (if a.score ≤ m.score then a else m) := by
  rw [headMinRow, h]

theorem headMinCand_mem : ∀ {l : List Candidate} {c : Candidate},
    headMinCand l = some c → c ∈ l := by
  intro l
  induction l with
  | nil => intro c h; cases h
  | cons a t ih =>
    intro c h
    rcases ht : headMinCand t with _ | m
    · rw [headMinCand_cons_none ht] at h
      injection h with h
      exact h ▸ List.mem_cons_self a t
    · rw [headMinCand_cons_some ht] at h
      injection h with h
      subst h
      by_cases hm : a.score ≤ m.score
      · rw [if_pos hm]
        exact List.mem_cons_self a t
      · rw [if_neg hm]
        exact List.mem_cons_of_mem _ (ih ht)

theorem headMinCand_cons_isSome (a : Candidate) (t : List Candidate) :
    ∃ m, headMinCand (a :: t) = some m := by
  rcases ht : headMinCand t with _ | m
  · exact ⟨a, headMinCand_cons_none ht⟩
  · exact ⟨_, headMinCand_cons_some ht⟩

theorem foldl_pickMinStep (l : List Candidate) :
    ∀ acc : Option Candidate,
      l.foldl pickMinStep acc =
        (headMinCand l).elim acc (fun m =>
          acc.elim (some m) (fun b =>
            some (if m.score < b.score then m else b))) := by
  induction l with
  | nil =>
    intro acc
    cases acc <;> rfl
  | cons a t ih =>
    intro acc
    rw [List.foldl_cons, ih (pickMinStep acc a)]
    rcases h : headMinCand t with _ | m
    · rw [headMinCand_cons_none h]
      cases acc with
      | none => simp only [Option.elim, pickMinStep]
      | some b =>
        simp only [Option.elim, pickMinStep]
        split_ifs <;> rfl
    · rw [headMinCand_cons_some h]
      cases acc with
      | none =>
        simp only [Option.elim, pickMinStep]
        split_ifs <;> first | rfl | (exfalso; linarith)
      | some b =>
        simp only [Option.elim, pickMinStep]
        by_cases hab : a.score < b.score
        · rw [if_pos hab]
          simp only [Option.elim]
          split_ifs <;> first | rfl | (exfalso; linarith)
        · rw [if_neg hab]
          simp only [Option.elim]
          split_ifs <;> first | rfl | (exfalso; linarith)

theorem headMinRow_map_toRow (l : List Candidate) :
    headMinRow (l.map toRow) = (headMinCand l).map toRow := by
  induction l with
  | nil => rfl
  | cons a t ih =>
    rw [List.map_cons]
    rcases ht : headMinCand t with _ | m
    · have hn : headMinRow (t.map toRow) = none := by
        rw [ih, ht]
        rfl
      rw [headMinCand_cons_none ht, headMinRow_cons_none hn]
      rfl
    · have hs : headMinRow (t.map toRow) = some (toRow m) := by
        rw [ih, ht]
        rfl
      rw [headMinCand_cons_some ht, headMinRow_cons_some hs]
      by_cases hsc : a.score ≤ m.score
      · rw [if_pos hsc, if_pos (show (toRow a).score ≤ (toRow m).score from hsc)]
        rfl
      · rw [if_neg hsc, if_neg (show ¬ (toRow a).score ≤ (toRow m).score from hsc)]
        rfl

theorem head_orderedInsert (x : LeaderboardRow) (s : List LeaderboardRow) :
    (List.orderedInsert rowLE x s).head? = some
      ((s.head?).elim x (fun m => if x.score ≤ m.score then x else m)) := by
  cases s with
  | nil => rfl
  | cons m t =>
    by_cases h : rowLE x m
    · rw [List.orderedInsert, if_pos h]
      show some x = some (if x.score ≤ m.score then x else m)
      rw [if_pos (show x.score ≤ m.score from h)]
    · rw [List.orderedInsert, if_neg h]
      show some m = some (if x.score ≤ m.score then x else m)
      rw [if_neg (show ¬ x.score ≤ m.score from h)]

theorem head_insertionSort (l : List LeaderboardRow) :
    (List.insertionSort rowLE l).head? = headMinRow l := by
  induction l with
  | nil => rfl
  | cons x t ih =>
    rw [List.insertionSort, head_orderedInsert, ih]
    rcases ht : headMinRow t with _ | m
    · rw [headMinRow_cons_none ht]
      rfl
    · rw [headMinRow_cons_some ht]
      rfl

theorem pickChosen_mem {model : String} {cands : List Candidate}
    {c : Candidate} (h : pickChosen model cands = some c) : c ∈ cands := by
  simp only [pickChosen] at h
  split at h
  · rename_i c' heq
    injection h with h
    subst h
    split at heq
    · exact List.mem_of_find?_eq_some heq
    · cases heq
  · rw [foldl_pickMinStep] at h
    rcases hm : headMinCand cands with _ | m
    · rw [hm] at h
      cases h
    · rw [hm] at h
      simp only [Option.elim] at h
      injection h with h
      subst h
      exact headMinCand_mem hm

theorem pickChosen_forced {model : String} {cands : List Candidate}
    {c : Candidate} (hne : model ≠ "auto")
    (hfind : cands.find? (fun d => d.id = model) = some c) :
    pickChosen model cands = some c := by
  simp only [pickChosen]
  rw [if_pos hne, hfind]

theorem pickChosen_auto (cands : List Candidate) :
    pickChosen "auto" cands = cands.foldl pickMinStep none := by
  simp only [pickChosen]
  rw [if_neg (fun hcon => hcon rfl)]

theorem pickChosen_auto_isSome (a : Candidate) (t : List Candidate) :
    ∃ c, pickChosen "auto" (a :: t) = some c := by
  rcases headMinCand_cons_isSome a t with ⟨m, hm⟩
  refine ⟨m, ?_⟩
  rw [pickChosen_auto, foldl_pickMinStep, hm]
  rfl

theorem pickChosen_auto_eq {cands : List Candidate} {c : Candidate}
    (h : pickChosen "auto" cands = some c) : headMinCand cands = some c := by
  rw [pickChosen_auto, foldl_pickMinStep] at h
  rcases hm : headMinCand cands with _ | m
  · rw [hm] at h
    cases h
  · rw [hm] at h
    simp only [Option.elim] at h
    exact h

theorem forecastIntelligence_ok_inv {O : NumericOracle} {A : ArimaOracle}
    {req : Request} {out : ForecastOutput}
    (hOk : forecastIntelligence O A req = .ok out) :
    ∃ chosen,
      pickChosen req.model (allCandidates O A (prepare O req)
        ⌊sanitizedHorizon req.horizon⌋.toNat req.model) = some chosen ∧
      2 ≤ (backtestResidualsOf (prepare O req) chosen).length ∧
      out = assembleOutput O req (prepare O req)
        ⌊sanitizedHorizon req.horizon⌋.toNat
        (allCandidates O A (prepare O req)
          ⌊sanitizedHorizon req.horizon⌋.toNat req.model) chosen ∧
      req.dates.length = req.values.length ∧ 8 ≤ req.dates.length ∧
      2 ≤ (prepare O req).continuous.continuousValues.length ∧
      (⌊sanitizedHorizon req.horizon⌋ : ℚ) = sanitizedHorizon req.horizon := by
  rw [forecastIntelligence] at hOk
  split at hOk
  · exact Except.noConfusion hOk
  split at hOk
  · exact Except.noConfusion hOk
  split at hOk
  · exact Except.noConfusion hOk
  split at hOk
  · exact Except.noConfusion hOk
  split at hOk
  · exact Except.noConfusion hOk
  split at hOk
  · exact Except.noConfusion hOk
  · rename_i chosen heq
    split at hOk
    · exact Except.noConfusion hOk
    · rename_i h6
      injection hOk with hOk
      refine ⟨chosen, heq, by omega, hOk.symm, by omega, by omega, by omega, ?_⟩
      by_contra hcon
      exact absurd hcon (by assumption)

theorem forecastIntelligence_ok_of {O : NumericOracle} {A : ArimaOracle}
    {req : Request} {chosen : Candidate}
    (h1 : ¬ req.requestId = "")
    (h2 : req.dates.length = req.values.length)
    (h3 : 8 ≤ req.dates.length)
    (h4 : 2 ≤ (prepare O req).continuous.continuousValues.length)
    (h5 : (⌊sanitizedHorizon req.horizon⌋ : ℚ) = sanitizedHorizon req.horizon)
    (hch : pickChosen req.model (allCandidates O A (prepare O req)
      ⌊sanitizedHorizon req.horizon⌋.toNat req.model) = some chosen)
    (h6 : 2 ≤ (backtestResidualsOf (prepare O req) chosen).length) :
    forecastIntelligence O A req = .ok (assembleOutput O req (prepare O req)
      ⌊sanitizedHorizon req.horizon⌋.toNat
      (allCandidates O A (prepare O req)
        ⌊sanitizedHorizon req.horizon⌋.toNat req.model) chosen) := by
  rw [forecastIntelligence, if_neg h1, if_neg (by omega), if_neg (by omega),
    if_neg (by omega), if_neg (not_ne_iff.mpr h5)]
  simp only [hch]
  rw [if_neg (by omega)]


theorem assignWeights_cons (c : Candidate) (rest : List Candidate)
    (hS : 0 < rawWeightSum (c :: rest)) (hc' : c.metrics.rmse.isSome) :
    assignWeights (c :: rest) =
      { c with weight := some (rawWeight c / rawWeightSum (c :: rest)) } ::
      rest.map (fun d => if d.metrics.rmse.isSome then
        { d with weight := some (rawWeight d / rawWeightSum (c :: rest)) }
        else d) := by
  rw [assignWeights, if_pos hS, List.map_cons, if_pos hc']

theorem allCandidates_cons (O : NumericOracle) (A : ArimaOracle)
    (P : Prepared) (H : ℕ) (model : String)
    (hS : 0 < rawWeightSum (baseCandidates O A P H model))
    (hsn : (snCandidate O P H).metrics.rmse.isSome) :
    ∃ w rest', allCandidates O A P H model =
      { snCandidate O P H with weight := w } :: rest' := by
  refine ⟨some (rawWeight (snCandidate O P H) /
    rawWeightSum (baseCandidates O A P H model)), ?_⟩
  have h1 : assignWeights (baseCandidates O A P H model) =
      { snCandidate O P H with weight := some (rawWeight (snCandidate O P H) /
        rawWeightSum (baseCandidates O A P H model)) } ::
      (driftCandidate O P H :: (sesCandidates O P H ++ holtCandidates O P H ++
        arimaCandidates O A P H model)).map (fun d =>
          if d.metrics.rmse.isSome then
            { d with weight := some (rawWeight d / rawWeightSum (baseCandidates O A P H model)) }
          else d) :=
    assignWeights_cons _ _ hS hsn
  simp only [allCandidates]
  rw [h1]
  exact ⟨_, rfl⟩

theorem pickChosen_head {model : String} {cands : List Candidate}
    {c : Candidate} {rest : List Candidate} (hne : model ≠ "auto")
    (hc : cands = c :: rest) (hid : c.id = model) :
    pickChosen model cands = some c := by
  apply pickChosen_forced hne
  rw [hc]
  exact List.find?_cons_of_pos _ (by simp [hid])

theorem pickChosen_isSome_auto {cands : List Candidate} (h : cands ≠ [])
    {model : String} (hm : model = "auto") :
    ∃ c, pickChosen model cands = some c := by
  subst hm
  rcases List.exists_cons_of_ne_nil h with ⟨a, t, rfl⟩
  exact pickChosen_auto_isSome a t

theorem snCandidate_rmse_isSome (O : NumericOracle) (P : Prepared) (H : ℕ)
    (hAct : P.actualVal.length = P.backtestWindow)
    (hpos : 0 < P.backtestWindow) :
    (snCandidate O P H).metrics.rmse.isSome := by
  apply computeErrorMetrics_rmse_isSome
  rw [hAct, List.length_map, length_invertTransform,
    length_seasonalNaiveForecast]
  simpa using hpos

theorem rawWeightSum_base_pos (O : NumericOracle) (A : ArimaOracle)
    (P : Prepared) (H : ℕ) (model : String)
    (hsn : (snCandidate O P H).metrics.rmse.isSome) :
    0 < rawWeightSum (baseCandidates O A P H model) := by
  refine rawWeightSum_pos ?_ hsn
  rw [baseCandidates]
  exact List.mem_cons_self _ _

theorem forced_sn_ok (O : NumericOracle) (A : ArimaOracle) (req : Request)
    (hmodel : req.model = "seasonal_naive")
    (h1 : ¬ req.requestId = "")
    (h2 : req.dates.length = req.values.length)
    (h3 : 8 ≤ req.dates.length)
    (h4 : 2 ≤ (prepare O req).continuous.continuousValues.length)
    (h5 : (⌊sanitizedHorizon req.horizon⌋ : ℚ) = sanitizedHorizon req.horizon)
    (hw2 : 2 ≤ (prepare O req).backtestWindow) :
    ∃ w, forecastIntelligence O A req =
      .ok (assembleOutput O req (prepare O req)
        ⌊sanitizedHorizon req.horizon⌋.toNat
        (allCandidates O A (prepare O req)
          ⌊sanitizedHorizon req.horizon⌋.toNat req.model)
        { snCandidate O (prepare O req)
            ⌊sanitizedHorizon req.horizon⌋.toNat with weight := w }) := by
  have hsn := snCandidate_rmse_isSome O (prepare O req)
    ⌊sanitizedHorizon req.horizon⌋.toNat (prepare_actualVal_length O req)
    (by omega)
  have hS := rawWeightSum_base_pos O A (prepare O req)
    ⌊sanitizedHorizon req.horizon⌋.toNat req.model hsn
  rcases allCandidates_cons O A (prepare O req)
    ⌊sanitizedHorizon req.horizon⌋.toNat req.model hS hsn with ⟨w, rest, hrest⟩
  have hch := pickChosen_head
    (show req.model ≠ "auto" by rw [hmodel]; decide) hrest
    (show _ = req.model by rw [hmodel]; rfl)
  refine ⟨w, forecastIntelligence_ok_of h1 h2 h3 h4 h5 hch ?_⟩
  rw [backtestResiduals_length, prepare_actualVal_length]
  exact hw2

theorem auto_ok (O : NumericOracle) (A : ArimaOracle) (req : Request)
    (hmodel : req.model = "auto")
    (h1 : ¬ req.requestId = "")
    (h2 : req.dates.length = req.values.length)
    (h3 : 8 ≤ req.dates.length)
    (h4 : 2 ≤ (prepare O req).continuous.continuousValues.length)
    (h5 : (⌊sanitizedHorizon req.horizon⌋ : ℚ) = sanitizedHorizon req.horizon)
    (hw2 : 2 ≤ (prepare O req).backtestWindow) :
    ∃ out, forecastIntelligence O A req = .ok out := by
  have hne : allCandidates O A (prepare O req)
      ⌊sanitizedHorizon req.horizon⌋.toNat req.model ≠ [] := by
    simp only [allCandidates]
    intro hcon
    rcases List.append_eq_nil.mp hcon with ⟨hl, _⟩
    have hlen := assignWeights_length (baseCandidates O A (prepare O req)
      ⌊sanitizedHorizon req.horizon⌋.toNat req.model)
    rw [hl, baseCandidates] at hlen
    simp at hlen
  rcases pickChosen_isSome_auto hne hmodel with ⟨c, hc⟩
  refine ⟨_, forecastIntelligence_ok_of h1 h2 h3 h4 h5 hc ?_⟩
  rw [backtestResiduals_length, prepare_actualVal_length]
  exact hw2

theorem ok_getD {F : Except String ForecastOutput}
    (h : ∃ o, F = .ok o) : F = .ok (F.toOption.getD default) := by
  rcases h with ⟨o, ho⟩
  rw [ho]
  rfl

theorem arimaOracleNone_faithful : ArimaLengthFaithful arimaOracleNone := by
  intro p d q s h r hr
  cases hr


theorem quantile_isSome {values : List ℚ} (h : values.length ≠ 0)
    (q : ℚ) : ∃ x, quantile values q = some x := by
  rw [quantile, if_neg h]
  dsimp only
  split_ifs <;> exact ⟨_, rfl⟩

theorem zValueForConfidence_pos (c : ℚ) : 0 < zValueForConfidence c := by
  rw [zValueForConfidence]
  split_ifs <;> norm_num

theorem sigmaForIntervalOf_pos (O : NumericOracle) (residuals : List ℚ) :
    0 < sigmaForIntervalOf O residuals := by
  rw [sigmaForIntervalOf, robustSigmaOf]
  calc (0 : ℚ) < 1 / 10 ^ 9 := by norm_num
    _ ≤ max (1 / 10 ^ 9) (14826 / 10000 * ssMedianAbsoluteDeviation residuals) :=
        le_max_left _ _
    _ ≤ _ := le_max_right _ _

theorem ensembleCandidateList_weight_none {O : NumericOracle}
    {weighted : List Candidate} {W H : ℕ} {actualVal : List ℚ}
    {baselineMAE : Option ℚ} {c : Candidate}
    (hc : c ∈ ensembleCandidateList O weighted W H actualVal baselineMAE) :
    c.weight = none := by
  rw [ensembleCandidateList] at hc
  split at hc
  · rcases List.mem_singleton.mp hc with rfl
    rfl
  · cases hc

theorem okC1ce : ∃ w, forecastIntelligence idOracle arimaOracleNone reqC1ce =
    .ok (assembleOutput idOracle reqC1ce (prepare idOracle reqC1ce)
      ⌊sanitizedHorizon reqC1ce.horizon⌋.toNat
      (allCandidates idOracle arimaOracleNone (prepare idOracle reqC1ce)
        ⌊sanitizedHorizon reqC1ce.horizon⌋.toNat reqC1ce.model)
      { snCandidate idOracle (prepare idOracle reqC1ce)
          ⌊sanitizedHorizon reqC1ce.horizon⌋.toNat with weight := w }) :=
  forced_sn_ok idOracle arimaOracleNone reqC1ce rfl (by decide) (by decide)
    (by decide) (by decide) (by decide) (by decide)

theorem hOkC1ce : forecastIntelligence idOracle arimaOracleNone reqC1ce =
    .ok outC1ce :=
  ok_getD (by rcases okC1ce with ⟨w, hw⟩; exact ⟨_, hw⟩)

theorem okC1w : ∃ w, forecastIntelligence idOracle arimaOracleNone reqC1w =
    .ok (assembleOutput idOracle reqC1w (prepare idOracle reqC1w)
      ⌊sanitizedHorizon reqC1w.horizon⌋.toNat
      (allCandidates idOracle arimaOracleNone (prepare idOracle reqC1w)
        ⌊sanitizedHorizon reqC1w.horizon⌋.toNat reqC1w.model)
      { snCandidate idOracle (prepare idOracle reqC1w)
          ⌊sanitizedHorizon reqC1w.horizon⌋.toNat with weight := w }) :=
  forced_sn_ok idOracle arimaOracleNone reqC1w rfl (by decide) (by decide)
    (by decide) (by decide) (by decide) (by decide)

theorem hOkC1w : forecastIntelligence idOracle arimaOracleNone reqC1w =
    .ok outC1w :=
  ok_getD (by rcases okC1w with ⟨w, hw⟩; exact ⟨_, hw⟩)

theorem hOkC2w : forecastIntelligence idOracle arimaOracleNone reqC2w =
    .ok outC2w :=
  ok_getD (by
    rcases forced_sn_ok idOracle arimaOracleNone reqC2w rfl (by decide)
      (by decide) (by decide) (by decide) (by decide) (by decide) with ⟨w, hw⟩
    exact ⟨_, hw⟩)

theorem hOkC5w : forecastIntelligence idOracle arimaOracleNone reqC5w =
    .ok outC5w :=
  ok_getD (auto_ok idOracle arimaOracleNone reqC5w rfl (by decide) (by decide)
    (by decide) (by decide) (by decide) (by decide))

theorem hOkC6w : forecastIntelligence idOracle arimaOracleNone reqC6w =
    .ok outC6w :=
  ok_getD (auto_ok idOracle arimaOracleNone reqC6w rfl (by decide) (by decide)
    (by decide) (by decide) (by decide) (by decide))

theorem hOkC10w : forecastIntelligence idOracle arimaOracleNone reqC10w =
    .ok outC10w :=
  ok_getD (by
    rcases forced_sn_ok idOracle arimaOracleNone reqC10w rfl (by decide)
      (by decide) (by decide) (by decide) (by decide) (by decide) with ⟨w, hw⟩
    exact ⟨_, hw⟩)


/-- C10: the sanitizer clamps every nonzero numeric horizon into `[1, 365]`
(`max(1, min(365, h))`), defaults a missing or zero horizon to 14, and every
successful run returns `⌊sanitizedHorizon⌋` forecast dates, a count that always
lies in `[1, 365]`.  (The non-integer-horizon error is the corrected part; see
the counterexample.) -/
theorem C10_amended (O : NumericOracle) (A : ArimaOracle) (req : Request)
    (out : ForecastOutput)
    (hOk : forecastIntelligence O A req = .ok out) :
    (∀ q : ℚ, q ≠ 0 → sanitizedHorizon (some q) = max 1 (min 365 q)) ∧
    sanitizedHorizon none = 14 ∧ sanitizedHorizon (some 0) = 14 ∧
    1 ≤ sanitizedHorizon req.horizon ∧ sanitizedHorizon req.horizon ≤ 365 ∧
    out.forecastDates.length = ⌊sanitizedHorizon req.horizon⌋.toNat ∧
    1 ≤ out.forecastDates.length ∧ out.forecastDates.length ≤ 365 := by
  have hs1 : ∀ o : Option ℚ, 1 ≤ sanitizedHorizon o := fun o => le_max_left _ _
  have hs365 : ∀ o : Option ℚ, sanitizedHorizon o ≤ 365 := by
    intro o
    rw [sanitizedHorizon.eq_def]
    exact max_le (by norm_num) (min_le_left _ _)
  have hfl : 1 ≤ ⌊sanitizedHorizon req.horizon⌋ :=
    Int.le_floor.mpr (by exact_mod_cast hs1 req.horizon)
  have hfu : ⌊sanitizedHorizon req.horizon⌋ ≤ 365 := by
    have h1 := Int.floor_le_floor (hs365 req.horizon)
    have h2 : (⌊(365 : ℚ)⌋ : ℤ) = 365 := by norm_num
    omega
  rcases forecastIntelligence_ok_inv hOk with ⟨chosen, hch, h6, hout, _, _, _, _⟩
  have hlen : out.forecastDates.length =
      ⌊sanitizedHorizon req.horizon⌋.toNat := by
    rw [hout]
    simp only [assembleOutput]
    rw [List.length_map, List.length_range]
  refine ⟨?_, by decide, by decide, hs1 _, hs365 _, hlen, ?_, ?_⟩
  · intro q hq
    show max 1 (min 365 (if q = 0 then 14 else q)) = _
    rw [if_neg hq]
  · rw [hlen]
    omega
  · rw [hlen]
    omega

/-- C10 witness: with requested horizon 400 the run succeeds and returns
365 forecast dates. -/
theorem C10_amended_witness :
    sanitizedHorizon reqC10w.horizon = 365 ∧
    outC10w.forecastDates.length = ⌊sanitizedHorizon reqC10w.horizon⌋.toNat ∧
    1 ≤ outC10w.forecastDates.length ∧ outC10w.forecastDates.length ≤ 365 := by
  have h := C10_amended idOracle arimaOracleNone reqC10w outC10w hOkC10w
  exact ⟨by decide, h.2.2.2.2.2.1, h.2.2.2.2.2.2.1, h.2.2.2.2.2.2.2⟩

/-- C2: under a length-faithful ARIMA oracle, every successful run with an
integer horizon `n ∈ [1, 365]` returns `forecast`, `ciLower`, `ciUpper` and
`forecastDates` arrays of length exactly `n`, whichever candidate was
selected. -/
theorem C2_horizon_lengths (O : NumericOracle) (A : ArimaOracle)
    (req : Request) (out : ForecastOutput) (n : ℕ) (hA : ArimaLengthFaithful A)
    (hh : req.horizon = some (n : ℚ)) (hn1 : 1 ≤ n) (hn365 : n ≤ 365)
    (hOk : forecastIntelligence O A req = .ok out) :
    out.forecast.length = n ∧ out.ciLower.length = n ∧
    out.ciUpper.length = n ∧ out.forecastDates.length = n := by
  rcases forecastIntelligence_ok_inv hOk with ⟨chosen, hch, h6, hout, _, _, _, _⟩
  have hs : sanitizedHorizon req.horizon = (n : ℚ) := by
    rw [hh, sanitizedHorizon]
    have h1q : (1 : ℚ) ≤ (n : ℚ) := by exact_mod_cast hn1
    have h365q : ((n : ℚ)) ≤ 365 := by exact_mod_cast hn365
    have h0 : ((n : ℚ)) ≠ 0 := by
      intro hcon
      rw [hcon] at h1q
      norm_num at h1q
    show max 1 (min 365 (if (n : ℚ) = 0 then 14 else (n : ℚ))) = (n : ℚ)
    rw [if_neg h0, min_eq_right h365q, max_eq_right h1q]
  have hH : ⌊sanitizedHorizon req.horizon⌋.toNat = n := by
    rw [hs, Int.floor_natCast]
    omega
  have hAct := prepare_actualVal_length O req
  have hVal := prepare_validation_length O req
  have hpos : 0 < (prepare O req).backtestWindow := by
    rw [backtestResiduals_length, hAct] at h6
    omega
  have hinv := allCandidates_invariant O A (prepare O req)
    ⌊sanitizedHorizon req.horizon⌋.toNat req.model hA hAct hVal hpos chosen
    (pickChosen_mem hch)
  have hf : out.forecast = chosen.forecastFuture := by
    rw [hout]
    simp only [assembleOutput]
  have hlo : out.ciLower.length = out.forecast.length := by
    rw [hout]
    simp only [assembleOutput]
    rw [List.length_map]
  have hup : out.ciUpper.length = out.forecast.length := by
    rw [hout]
    simp only [assembleOutput]
    rw [List.length_map]
  have hfl : out.forecast.length = n := by
    rw [hf, hinv.1, hH]
  refine ⟨hfl, by rw [hlo, hfl], by rw [hup, hfl], ?_⟩
  rw [hout]
  simp only [assembleOutput]
  rw [List.length_map, List.length_range, hH]

/-- C2 witness: horizon 3, forced seasonal-naive, all four arrays have
length 3. -/
theorem C2_horizon_lengths_witness :
    outC2w.forecast.length = 3 ∧ outC2w.ciLower.length = 3 ∧
    outC2w.ciUpper.length = 3 ∧ outC2w.forecastDates.length = 3 :=
  C2_horizon_lengths idOracle arimaOracleNone reqC2w outC2w 3
    arimaOracleNone_faithful (by norm_num [reqC2w]) (by norm_num) (by norm_num)
    hOkC2w


/-- C5: the leaderboard is sorted ascending by the composite score (which on
every row equals `rmse·1e6 + mae + smape` of its metrics); in auto mode the
selected model is the head of the leaderboard, and a forced model id that is
present among the candidates is always the selected one. -/
theorem C5_leaderboard (O : NumericOracle) (A : ArimaOracle) (req : Request)
    (out : ForecastOutput) (hA : ArimaLengthFaithful A)
    (hOk : forecastIntelligence O A req = .ok out) :
    List.Sorted rowLE out.modelLeaderboard ∧
    (∀ r ∈ out.modelLeaderboard, r.score = scoreFromMetrics r.metrics) ∧
    (req.model = "auto" → ∃ r, out.modelLeaderboard.head? = some r ∧
      out.selectedModelId = r.id) ∧
    (req.model ≠ "auto" →
      ∀ c ∈ allCandidates O A (prepare O req)
        ⌊sanitizedHorizon req.horizon⌋.toNat req.model,
        c.id = req.model → out.selectedModelId = req.model) := by
  rcases forecastIntelligence_ok_inv hOk with ⟨chosen, hch, h6, hout, _, _, _, _⟩
  have hAct := prepare_actualVal_length O req
  have hVal := prepare_validation_length O req
  have hpos : 0 < (prepare O req).backtestWindow := by
    rw [backtestResiduals_length, hAct] at h6
    omega
  have hinv := allCandidates_invariant O A (prepare O req)
    ⌊sanitizedHorizon req.horizon⌋.toNat req.model hA hAct hVal hpos
  have hlb : out.modelLeaderboard = buildLeaderboard (allCandidates O A
      (prepare O req) ⌊sanitizedHorizon req.horizon⌋.toNat req.model) := by
    rw [hout]
    simp only [assembleOutput]
  have hsel : out.selectedModelId = chosen.id := by
    rw [hout]
    simp only [assembleOutput]
  refine ⟨?_, ?_, ?_, ?_⟩
  · rw [hlb, buildLeaderboard]
    exact List.sorted_insertionSort rowLE _
  · intro r hr
    rw [hlb, buildLeaderboard] at hr
    have hr' := (List.perm_insertionSort rowLE _).subset hr
    rcases List.mem_map.mp hr' with ⟨c, hcmem, rfl⟩
    have h0 := hinv c hcmem
    show (toRow c).score = scoreFromMetrics (toRow c).metrics
    rw [show (toRow c).score = c.score from rfl,
      show (toRow c).metrics = c.metrics from rfl]
    exact h0.2.2.2
  · intro hauto
    rw [hauto] at hch hlb
    have hmc := pickChosen_auto_eq hch
    refine ⟨toRow chosen, ?_, by rw [hsel]; rfl⟩
    rw [hlb, buildLeaderboard, head_insertionSort, headMinRow_map_toRow, hmc]
    rfl
  · intro hne c hcmem hcid
    have hsome : ((allCandidates O A (prepare O req)
        ⌊sanitizedHorizon req.horizon⌋.toNat req.model).find?
        (fun d => d.id = req.model)).isSome := by
      rw [List.find?_isSome]
      exact ⟨c, hcmem, by simp [hcid]⟩
    rcases Option.isSome_iff_exists.mp hsome with ⟨c', hc'⟩
    have hceq := pickChosen_forced hne hc'
    have hcc : chosen = c' := by
      have h := hch.symm.trans hceq
      injection h
    have hid' : c'.id = req.model := by
      have hp := List.find?_some hc'
      simpa using hp
    rw [hsel, hcc]
    exact hid'

/-- C5 witness: auto-mode run whose leaderboard is sorted and headed by the
selected model. -/
theorem C5_leaderboard_witness :
    List.Sorted rowLE outC5w.modelLeaderboard ∧
    (∀ r ∈ outC5w.modelLeaderboard, r.score = scoreFromMetrics r.metrics) ∧
    (∃ r, outC5w.modelLeaderboard.head? = some r ∧
      outC5w.selectedModelId = r.id) := by
  have h := C5_leaderboard idOracle arimaOracleNone reqC5w outC5w
    arimaOracleNone_faithful hOkC5w
  exact ⟨h.1, h.2.1, h.2.2.1 rfl⟩


theorem ensembleCandidateList_filterMap_weight (O : NumericOracle)
    (weighted : List Candidate) (W H : ℕ) (actualVal : List ℚ)
    (baselineMAE : Option ℚ) :
    (ensembleCandidateList O weighted W H actualVal baselineMAE).filterMap
      Candidate.weight = [] := by
  rw [ensembleCandidateList]
  dsimp only
  split <;> rfl

/-- C6: whenever an ensemble row is on the leaderboard, the non-null weights
reported across the leaderboard sum to exactly 1, and every reported weight is
`(1 / max(rmse, 1e-9)) / Σ (1 / max(rmse, 1e-9))` — i.e. proportional to the
inverse validation RMSE of the corresponding base candidate. -/
theorem C6_ensemble_weights (O : NumericOracle) (A : ArimaOracle)
    (req : Request) (out : ForecastOutput)
    (hOk : forecastIntelligence O A req = .ok out)
    (hens : ∃ r ∈ out.modelLeaderboard, r.id = "ensemble") :
    (out.modelLeaderboard.filterMap LeaderboardRow.weight).sum = 1 ∧
    (∀ r ∈ out.modelLeaderboard, ∀ w, r.weight = some w →
      ∃ c ∈ baseCandidates O A (prepare O req)
        ⌊sanitizedHorizon req.horizon⌋.toNat req.model,
        c.metrics = r.metrics ∧
        w = rawWeight c / rawWeightSum (baseCandidates O A (prepare O req)
          ⌊sanitizedHorizon req.horizon⌋.toNat req.model)) := by
  rcases forecastIntelligence_ok_inv hOk with ⟨chosen, hch, h6, hout, _, _, _, _⟩
  set P := prepare O req with hPdef
  set H := ⌊sanitizedHorizon req.horizon⌋.toNat with hHdef
  set B := baseCandidates O A P H req.model with hBdef
  have hlb : out.modelLeaderboard =
      buildLeaderboard (allCandidates O A P H req.model) := by
    rw [hout]
    simp only [assembleOutput]
  have hw0 : ∀ c ∈ B, c.weight = none :=
    fun c hc => (baseCandidates_weight_id O A P H req.model c hc).1
  rcases hens with ⟨r, hr, hrid⟩
  rw [hlb, buildLeaderboard] at hr
  have hr' := (List.perm_insertionSort rowLE _).subset hr
  rcases List.mem_map.mp hr' with ⟨ce, hcemem, rfl⟩
  have hceid : ce.id = "ensemble" := hrid
  simp only [allCandidates] at hcemem
  rw [← hBdef] at hcemem
  have hSpos : 0 < rawWeightSum B := by
    rcases List.mem_append.mp hcemem with hcw | hcens
    · exfalso
      rcases mem_assignWeights hcw with ⟨c0, hc0, hid, _, _, _, _, _⟩
      exact (baseCandidates_weight_id O A P H req.model c0 hc0).2 (hid ▸ hceid)
    · rw [ensembleCandidateList] at hcens
      split at hcens
      · rename_i hlen2
        have hne : ensembleMembers (assignWeights B) P.backtestWindow H ≠ [] := by
          intro hnil
          rw [hnil] at hlen2
          simp at hlen2
        rcases List.exists_mem_of_ne_nil _ hne with ⟨m, hm⟩
        rcases mem_ensembleMembers hm with ⟨hmw, _, _, _, hmpos⟩
        by_contra hS0
        rw [not_lt] at hS0
        have hid2 : assignWeights B = B := by
          rw [assignWeights, if_neg (not_lt.mpr hS0)]
        rw [hid2] at hmw
        rw [hw0 m hmw] at hmpos
        simp at hmpos
      · cases hcens
  constructor
  · have hsum := sum_weights_assignWeights B hw0 hSpos
    rw [hlb, buildLeaderboard,
      List.Perm.sum_eq (List.Perm.filterMap _ (List.perm_insertionSort rowLE _)),
      List.filterMap_map,
      show LeaderboardRow.weight ∘ toRow = Candidate.weight from rfl]
    simp only [allCandidates]
    rw [← hBdef, List.filterMap_append, List.sum_append,
      ensembleCandidateList_filterMap_weight, hsum]
    simp
  · intro r2 hr2 w hw
    rw [hlb, buildLeaderboard] at hr2
    have hr2' := (List.perm_insertionSort rowLE _).subset hr2
    rcases List.mem_map.mp hr2' with ⟨c2, hc2mem, rfl⟩
    have hw2 : c2.weight = some w := hw
    simp only [allCandidates] at hc2mem
    rw [← hBdef] at hc2mem
    rcases List.mem_append.mp hc2mem with hcw | hcen
    · rw [assignWeights, if_pos hSpos] at hcw
      rcases List.mem_map.mp hcw with ⟨c0, hc0, hc0eq⟩
      by_cases hrm : c0.metrics.rmse.isSome
      · rw [if_pos hrm] at hc0eq
        subst hc0eq
        refine ⟨c0, hc0, rfl, ?_⟩
        injection hw2 with hw3
        exact hw3.symm
      · rw [if_neg hrm] at hc0eq
        subst hc0eq
        rw [hw0 c0 hc0] at hw2
        cases hw2
    · rw [ensembleCandidateList_weight_none hcen] at hw2
      cases hw2


theorem baseCandidates_length_ge_two (O : NumericOracle) (A : ArimaOracle)
    (P : Prepared) (H : ℕ) (model : String) :
    2 ≤ (baseCandidates O A P H model).length := by
  rw [baseCandidates]
  simp only [List.length_cons]
  omega

theorem ensemble_present_C6w :
    ∃ r ∈ outC6w.modelLeaderboard, r.id = "ensemble" := by
  rcases forecastIntelligence_ok_inv hOkC6w with ⟨chosen, hch, h6, hout, _, _, _, _⟩
  have hAct := prepare_actualVal_length idOracle reqC6w
  have hVal := prepare_validation_length idOracle reqC6w
  have hpos : 0 < (prepare idOracle reqC6w).backtestWindow := by
    rw [backtestResiduals_length, hAct] at h6
    omega
  have hbase := baseCandidates_invariant idOracle arimaOracleNone
    (prepare idOracle reqC6w) ⌊sanitizedHorizon reqC6w.horizon⌋.toNat
    reqC6w.model arimaOracleNone_faithful hAct hVal hpos
  have hsn := snCandidate_rmse_isSome idOracle (prepare idOracle reqC6w)
    ⌊sanitizedHorizon reqC6w.horizon⌋.toNat hAct (by omega)
  have hS := rawWeightSum_base_pos idOracle arimaOracleNone
    (prepare idOracle reqC6w) ⌊sanitizedHorizon reqC6w.horizon⌋.toNat
    reqC6w.model hsn
  set P := prepare idOracle reqC6w with hP
  set H := ⌊sanitizedHorizon reqC6w.horizon⌋.toNat with hH
  set B := baseCandidates idOracle arimaOracleNone P H reqC6w.model with hB
  have hlb : outC6w.modelLeaderboard =
      buildLeaderboard (allCandidates idOracle arimaOracleNone P H
        reqC6w.model) := by
    rw [hout]
    simp only [assembleOutput]
  have hwprop : ∀ m ∈ assignWeights B, m.metrics.rmse.isSome ∧
      m.validationPred.length = P.backtestWindow ∧
      m.forecastFuture.length = H ∧ 0 < m.weight.getD 0 := by
    intro m hm
    rw [assignWeights, if_pos hS] at hm
    rcases List.mem_map.mp hm with ⟨c0, hc0, hc0eq⟩
    have h0 := hbase c0 hc0
    rw [if_pos h0.2.2.2.1] at hc0eq
    subst hc0eq
    exact ⟨h0.2.2.2.1, h0.2.2.1, h0.1, div_pos (rawWeight_pos c0) hS⟩
  have hmemEq : ensembleMembers (assignWeights B) P.backtestWindow H =
      assignWeights B := by
    rw [ensembleMembers]
    have h1 : (assignWeights B).filter (fun c => c.metrics.rmse.isSome) =
        assignWeights B :=
      List.filter_eq_self.mpr (fun m hm => by simpa using (hwprop m hm).1)
    rw [h1]
    refine List.filter_eq_self.mpr ?_
    intro m hm
    have h := hwprop m hm
    exact decide_eq_true ⟨h.2.1, h.2.2.1, h.2.2.2⟩
  have hlen2 : 2 ≤ (ensembleMembers (assignWeights B)
      P.backtestWindow H).length := by
    rw [hmemEq, assignWeights_length, hB]
    exact baseCandidates_length_ge_two idOracle arimaOracleNone P H reqC6w.model
  have hensmem : ∃ e ∈ ensembleCandidateList idOracle (assignWeights B)
      P.backtestWindow H P.actualVal P.baselineMAE, e.id = "ensemble" := by
    rw [ensembleCandidateList]
    dsimp only
    rw [if_pos hlen2]
    exact ⟨_, List.mem_singleton_self _, rfl⟩
  rcases hensmem with ⟨e, hemem, heid⟩
  refine ⟨toRow e, ?_, heid⟩
  rw [hlb, buildLeaderboard]
  refine (List.perm_insertionSort rowLE _).symm.subset ?_
  refine List.mem_map_of_mem toRow ?_
  simp only [allCandidates]
  rw [← hB]
  exact List.mem_append_right _ hemem

/-- C6 witness: an auto-mode run in which the ensemble row is present and the
reported weights sum to 1. -/
theorem C6_ensemble_weights_witness :
    (outC6w.modelLeaderboard.filterMap LeaderboardRow.weight).sum = 1 :=
  (C6_ensemble_weights idOracle arimaOracleNone reqC6w outC6w hOkC6w
    ensemble_present_C6w).1


/-- C1 (amended): every successful run returns non-negative `forecast`,
`ciLower` and `ciUpper` arrays, and whenever the effective interval method is
not `"empirical"` the bands bracket the forecast pointwise
(`ciLower[i] ≤ forecast[i] ≤ ciUpper[i]`); under the empirical method the
residual quantiles can push `ciLower` above the forecast (see the
counterexample). -/
theorem C1_amended (O : NumericOracle) (A : ArimaOracle) (req : Request)
    (out : ForecastOutput) (hA : ArimaLengthFaithful A)
    (hOk : forecastIntelligence O A req = .ok out) :
    (∀ x ∈ out.forecast, 0 ≤ x) ∧ (∀ x ∈ out.ciLower, 0 ≤ x) ∧
    (∀ x ∈ out.ciUpper, 0 ≤ x) ∧
    (out.intervalMethod ≠ "empirical" → ∀ i,
      out.ciLower.getD i 0 ≤ out.forecast.getD i 0 ∧
      out.forecast.getD i 0 ≤ out.ciUpper.getD i 0) := by
  rcases forecastIntelligence_ok_inv hOk with ⟨chosen, hch, h6, hout, _, _, _, _⟩
  have hAct := prepare_actualVal_length O req
  have hVal := prepare_validation_length O req
  have hpos : 0 < (prepare O req).backtestWindow := by
    rw [backtestResiduals_length, hAct] at h6
    omega
  have hinv := allCandidates_invariant O A (prepare O req)
    ⌊sanitizedHorizon req.horizon⌋.toNat req.model hA hAct hVal hpos chosen
    (pickChosen_mem hch)
  have hnn := hinv.2.1
  have hf : out.forecast = chosen.forecastFuture := by
    rw [hout]
    simp only [assembleOutput]
  have hlo : out.ciLower = chosen.forecastFuture.map (fun y =>
      clampNonNegative (y + lowerOffsetOf O req
        (backtestResidualsOf (prepare O req) chosen))) := by
    rw [hout]
    simp only [assembleOutput]
  have hup : out.ciUpper = chosen.forecastFuture.map (fun y =>
      clampNonNegative (y + upperOffsetOf O req
        (backtestResidualsOf (prepare O req) chosen))) := by
    rw [hout]
    simp only [assembleOutput]
  have him : out.intervalMethod = intervalMethodOf O req
      (backtestResidualsOf (prepare O req) chosen) := by
    rw [hout]
    simp only [assembleOutput]
  refine ⟨by rw [hf]; exact hnn, ?_, ?_, ?_⟩
  · rw [hlo]
    intro x hx
    rcases List.mem_map.mp hx with ⟨y, _, rfl⟩
    exact le_max_left 0 _
  · rw [hup]
    intro x hx
    rcases List.mem_map.mp hx with ⟨y, _, rfl⟩
    exact le_max_left 0 _
  · intro hne i
    rw [him] at hne
    have hz : 0 < zOf req := zValueForConfidence_pos (selectedConfidenceOf req)
    have hsig := sigmaForIntervalOf_pos O
      (backtestResidualsOf (prepare O req) chosen)
    have hzs : 0 < zOf req * sigmaForIntervalOf O
        (backtestResidualsOf (prepare O req) chosen) := mul_pos hz hsig
    have hlo' : lowerOffsetOf O req
        (backtestResidualsOf (prepare O req) chosen) =
        -(zOf req * sigmaForIntervalOf O
          (backtestResidualsOf (prepare O req) chosen)) := by
      rw [lowerOffsetOf, if_neg hne]
    have hup' : upperOffsetOf O req
        (backtestResidualsOf (prepare O req) chosen) =
        zOf req * sigmaForIntervalOf O
          (backtestResidualsOf (prepare O req) chosen) := by
      rw [upperOffsetOf, if_neg hne]
    by_cases hi : i < chosen.forecastFuture.length
    · have hfi : 0 ≤ chosen.forecastFuture.getD i 0 := getD_nonneg hnn i
      have hgl : out.ciLower.getD i 0 = clampNonNegative
          (chosen.forecastFuture.getD i 0 + lowerOffsetOf O req
            (backtestResidualsOf (prepare O req) chosen)) := by
        rw [hlo]
        exact getD_map_lt _ _ hi 0
      have hgu : out.ciUpper.getD i 0 = clampNonNegative
          (chosen.forecastFuture.getD i 0 + upperOffsetOf O req
            (backtestResidualsOf (prepare O req) chosen)) := by
        rw [hup]
        exact getD_map_lt _ _ hi 0
      rw [hf, hgl, hgu, hlo', hup', clampNonNegative, clampNonNegative]
      constructor
      · exact max_le hfi (by linarith)
      · exact le_max_of_le_right (by linarith)
    · have hnl : chosen.forecastFuture.length ≤ i := not_lt.mp hi
      have h1 : out.forecast.getD i 0 = 0 := by
        rw [hf]
        exact List.getD_eq_default _ _ hnl
      have h2 : out.ciLower.getD i 0 = 0 := by
        rw [hlo]
        refine List.getD_eq_default _ _ ?_
        rw [List.length_map]
        exact hnl
      have h3 : out.ciUpper.getD i 0 = 0 := by
        rw [hup]
        refine List.getD_eq_default _ _ ?_
        rw [List.length_map]
        exact hnl
      rw [h1, h2, h3]
      exact ⟨le_refl 0, le_refl 0⟩

theorem C1w_interval_normal : outC1w.intervalMethod ≠ "empirical" := by
  rcases forecastIntelligence_ok_inv hOkC1w with ⟨chosen, hch, h6, hout, _, _, _, _⟩
  rw [hout]
  simp only [assembleOutput]
  rw [intervalMethodOf]
  rw [if_neg (show ¬reqC1w.interval = "auto" by decide)]
  split_ifs <;> decide

/-- C1 witness (amended): a normal-interval run where the bands bracket the
forecast at index 0 and all three arrays are non-negative. -/
theorem C1_amended_witness :
    (∀ x ∈ outC1w.forecast, 0 ≤ x) ∧ (∀ x ∈ outC1w.ciLower, 0 ≤ x) ∧
    (∀ x ∈ outC1w.ciUpper, 0 ≤ x) ∧
    (outC1w.ciLower.getD 0 0 ≤ outC1w.forecast.getD 0 0 ∧
     outC1w.forecast.getD 0 0 ≤ outC1w.ciUpper.getD 0 0) := by
  have h := C1_amended idOracle arimaOracleNone reqC1w outC1w
    arimaOracleNone_faithful hOkC1w
  exact ⟨h.1, h.2.1, h.2.2.1, h.2.2.2 C1w_interval_normal 0⟩


/-- C1 counterexample: on nine days of history `[10,10,20,...,20]` with the
empirical interval method, the backtest residuals are all `+10`, the lower
residual quantile is `10`, and the returned `ciLower[0] = 30` exceeds
`forecast[0] = 20` — refuting `ciLower[i] ≤ forecast[i]`. -/
theorem C1_counterexample :
    forecastIntelligence idOracle arimaOracleNone reqC1ce = .ok outC1ce ∧
    outC1ce.intervalMethod = "empirical" ∧
    outC1ce.forecast.getD 0 0 < outC1ce.ciLower.getD 0 0 := by
  rcases okC1ce with ⟨w, hw⟩
  have hout : outC1ce = assembleOutput idOracle reqC1ce
      (prepare idOracle reqC1ce) ⌊sanitizedHorizon reqC1ce.horizon⌋.toNat
      (allCandidates idOracle arimaOracleNone (prepare idOracle reqC1ce)
        ⌊sanitizedHorizon reqC1ce.horizon⌋.toNat reqC1ce.model)
      { snCandidate idOracle (prepare idOracle reqC1ce)
          ⌊sanitizedHorizon reqC1ce.horizon⌋.toNat with weight := w } := by
    have h := hOkC1ce.symm.trans hw
    injection h
  have hvp : (snCandidate idOracle (prepare idOracle reqC1ce)
      ⌊sanitizedHorizon reqC1ce.horizon⌋.toNat).validationPred =
      [10, 10, 10, 10, 10, 10, 10] := by decide
  have hvp2 : ({ snCandidate idOracle (prepare idOracle reqC1ce)
      ⌊sanitizedHorizon reqC1ce.horizon⌋.toNat with weight := w } :
      Candidate).validationPred = [10, 10, 10, 10, 10, 10, 10] := hvp
  have hav : (prepare idOracle reqC1ce).actualVal =
      [20, 20, 20, 20, 20, 20, 20] := by decide
  have hff : (snCandidate idOracle (prepare idOracle reqC1ce)
      ⌊sanitizedHorizon reqC1ce.horizon⌋.toNat).forecastFuture = [20] := by
    decide
  have hff2 : ({ snCandidate idOracle (prepare idOracle reqC1ce)
      ⌊sanitizedHorizon reqC1ce.horizon⌋.toNat with weight := w } :
      Candidate).forecastFuture = [20] := hff
  have hres : backtestResidualsOf (prepare idOracle reqC1ce)
      { snCandidate idOracle (prepare idOracle reqC1ce)
          ⌊sanitizedHorizon reqC1ce.horizon⌋.toNat with weight := w } =
      [10, 10, 10, 10, 10, 10, 10] := by
    rw [backtestResidualsOf, hav]
    simp only [hvp2, hvp, map_safeFiniteNumber]
    norm_num [mapWithIndex, mapWithIndexFrom]
  have hq : qLowOf reqC1ce [10, 10, 10, 10, 10, 10, 10] = some 10 := by
    rw [qLowOf]
    norm_num [selectedConfidenceOf, reqC1ce, quantile, List.insertionSort,
      List.orderedInsert]
  have him : intervalMethodOf idOracle reqC1ce
      [10, 10, 10, 10, 10, 10, 10] = "empirical" := by
    rw [intervalMethodOf]
    rw [if_neg (show ¬reqC1ce.interval = "auto" by decide)]
    split_ifs with hcon
    · exfalso
      rcases hcon with ⟨-, hq2 | hq2⟩
      · rw [hq] at hq2
        cases hq2
      · rcases quantile_isSome
          (show ([10, 10, 10, 10, 10, 10, 10] : List ℚ).length ≠ 0 by decide)
          (1 - (1 - selectedConfidenceOf reqC1ce) / 2) with ⟨x, hx⟩
        rw [qHighOf, hx] at hq2
        cases hq2
    · decide
  have hlow : lowerOffsetOf idOracle reqC1ce [10, 10, 10, 10, 10, 10, 10] =
      10 := by
    rw [lowerOffsetOf, if_pos him, hq]
    rfl
  refine ⟨hOkC1ce, ?_, ?_⟩
  · rw [hout]
    simp only [assembleOutput]
    rw [hres]
    exact him
  · rw [hout]
    simp only [assembleOutput]
    simp only [hres]
    simp only [hlow]
    simp only [hff2, hff]
    norm_num [clampNonNegative]

end ForecastWorker
